import Mathlib

/-!
# Verification of the schema knowledge-graph core of `agentic-text2sql`

Shallow embedding of `schema_introspection.py` (class `SchemaIntrospector`),
together with the configuration values from `config.py` and the schema data
model from `schemas.py`.

Conventions of the embedding:
* Python strings are Lean `String`s; `str.upper()`/`lower()` are
  `String.toUpper`/`String.toLower`; `len` is `String.length` (character
  count).
* Python floats appearing here (similarity scores, thresholds, confidence)
  are modelled as exact rationals `ℚ`.  `fuzz.ratio` (fuzzywuzzy) returns an
  integer 0–100: it is `int(round(100 * 2*M/T))`, where `M` is the number of
  matched characters (the longest common subsequence for these inputs) and
  `T` the sum of the lengths.  We model it with an LCS-based definition and
  round half up; Python rounds the intermediate float half to even, which can
  only differ on exact ties, and no tie is relied on below.
* Dicts with a fixed key set become structures; the open-ended `properties`
  dicts become association lists (`Bag`) whose operations mirror Python dict
  semantics (assignment replaces in place, insertion appends at the end).
* Fallible or stateful I/O (the Oracle and Neo4j clients) is replaced by
  explicit inputs: the catalog query results become a `Catalog` value and the
  Neo4j database becomes an explicit `GraphStore` value threaded through the
  store operation.
-/

/-- A Python value stored in an open `properties` bag: the code only ever
stores strings, booleans, numbers and `None` there. -/
inductive PVal where
  | s : String → PVal
  | b : Bool → PVal
  | n : ℚ → PVal
  | null : PVal
deriving DecidableEq, Repr

/-- An open key/value property bag (a Python dict in insertion order). -/
abbrev Bag := List (String × PVal)

/-- Python `bag[k] = v`: replace the first binding in place, else append. -/
def bagSet : Bag → String → PVal → Bag
  | [], k, v => [(k, v)]
  | (k', v') :: rest, k, v =>
    if k' = k then (k, v) :: rest else (k', v') :: bagSet rest k v

/-- Python `bag.get(k)` (returns `None` when the key is absent). -/
def bagGet (b : Bag) (k : String) : Option PVal :=
  (b.find? (fun p => p.1 == k)).map (·.2)

/-- `bag.get(k)` when a string is expected (`None`/non-strings give `none`). -/
def bagGetStr (b : Bag) (k : String) : Option String :=
  match bagGet b k with
  | some (PVal.s v) => some v
  | _ => none

/-- `SchemaNode` from `schemas.py`: id, type (`database | table | column`),
name, and an open property bag. -/
structure SchemaNode where
  id : String
  type : String
  name : String
  properties : Bag
deriving DecidableEq, Repr

/-- `SchemaRelationship` from `schemas.py`. -/
structure SchemaRelationship where
  source_id : String
  target_id : String
  type : String
  properties : Bag
deriving DecidableEq, Repr

/-- `SchemaGraph` from `schemas.py`. -/
structure SchemaGraph where
  nodes : List SchemaNode
  relationships : List SchemaRelationship
deriving DecidableEq, Repr

/-- The settings of `config.py` used by the introspection core. -/
structure Settings where
  default_database_name : String
  support_multiple_databases : Bool
  enable_fk_inference : Bool
  fk_inference_similarity_threshold : ℚ
deriving DecidableEq, Repr

/-- The defaults declared in `config.py`. -/
def defaultSettings : Settings :=
  { default_database_name := "oracle_main"
    support_multiple_databases := true
    enable_fk_inference := true
    fk_inference_similarity_threshold := 7/10 }

/-! ## Fuzzy string similarity (`fuzzywuzzy.fuzz.ratio`) -/

/-- One step of the longest-common-subsequence dynamic program: given the
remaining characters of `b`, the matching suffix of the previous row and the
value just computed to the left, produce the rest of the new row. -/
def lcsRowStep (c : Char) : List Char → List Nat → Nat → List Nat
  | [], _, _ => []
  | _ :: _, [], _ => []
  | bc :: bs, p :: ps, left =>
    let cur := if c = bc then p + 1 else max left (ps.headD 0)
    cur :: lcsRowStep c bs ps cur

/-- Length of the longest common subsequence of two character lists
(row-based dynamic program, so that the kernel can evaluate it). -/
def lcsLength (a b : List Char) : Nat :=
  let init := List.replicate (b.length + 1) 0
  let final := a.foldl (fun row c => 0 :: lcsRowStep c b row 0) init
  final.getLastD 0

/-- `fuzz.ratio(a, b)` as an integer 0–100: `round(100 * 2*M/T)` with
`M = lcsLength`, `T` the total length; two empty strings give 100, and the
rounding is half up (see the module comment). -/
def ratio100 (a b : String) : Nat :=
  let T := a.length + b.length
  if T = 0 then 100 else (400 * lcsLength a.data b.data + T) / (2 * T)

/-- `fuzz.ratio(a, b) / 100.0` as an exact rational. -/
def fuzzQ (a b : String) : ℚ := (ratio100 a b : ℚ) / 100

/-- Python substring containment `needle in hay`. -/
def strContainsSub (hay needle : String) : Bool :=
  go hay.data
where
  go : List Char → Bool
  | [] => needle.data.isEmpty
  | c :: cs => needle.data.isPrefixOf (c :: cs) || go cs

/-- Python `round(q, 2)` for the nonnegative rationals produced here
(half-up on the tie; Python's float round half-to-even never differs on the
values this code produces, as checked case by case for the `k/100 * 1.1`
family). -/
def round2 (q : ℚ) : ℚ := (⌊q * 100 + 1/2⌋ : ℚ) / 100

/-! ## Foreign-key inference helpers
(`SchemaIntrospector._matches_fk_pattern`, `_extract_table_references`,
`_find_matching_table`, `_find_primary_key_column`,
`_calculate_confidence`) -/

/-- The fixed `fk_patterns` list of `_infer_foreign_keys_from_naming`. -/
def fkPatterns : List String :=
  ["{table}_ID", "ID_{table}", "{table}_KEY", "{table}_FK", "{table}ID", "ID{table}"]

/-- `_matches_fk_pattern(column_name, pattern)`: case-insensitive test of a
column name against a `{table}` placeholder pattern. -/
def matchesFkPattern (columnName pattern : String) : Bool :=
  if !(strContainsSub pattern "{table}") then false
  else
    let cu := columnName.toUpper
    let pu := pattern.toUpper
    if pu.startsWith "{TABLE}" then
      let suf := pu.replace "{TABLE}" ""
      cu.endsWith suf && cu.length > suf.length
    else if pu.endsWith "{TABLE}" then
      let pre := pu.replace "{TABLE}" ""
      cu.startsWith pre && cu.length > pre.length
    else
      match pu.splitOn "{TABLE}" with
      | [pre, suf] =>
        cu.startsWith pre && cu.endsWith suf && cu.length > pre.length + suf.length
      | _ => false

/-- `_extract_table_references(column_name, pattern)`: the candidate table
reference(s) cut out of the column name, original case preserved, empty
references dropped. -/
def extractTableReferences (columnName pattern : String) : List String :=
  let cu := columnName.toUpper
  let pu := pattern.toUpper
  let refs : List String :=
    if pu.startsWith "{TABLE}" then
      let suf := pu.replace "{TABLE}" ""
      if cu.endsWith suf then
        [if suf ≠ "" then columnName.take (columnName.length - suf.length) else columnName]
      else []
    else if pu.endsWith "{TABLE}" then
      let pre := pu.replace "{TABLE}" ""
      if cu.startsWith pre then
        [if pre ≠ "" then columnName.drop pre.length else columnName]
      else []
    else
      match pu.splitOn "{TABLE}" with
      | [pre, suf] =>
        if cu.startsWith pre && cu.endsWith suf then
          [(columnName.drop pre.length).take (columnName.length - suf.length - pre.length)]
        else []
      | _ => []
  refs.filter (· ≠ "")

/-- One loop iteration of `_find_matching_table`: update the running
`(best_match, best_score)` accumulator with table `t` (the non-exact-match
part of the loop body: fuzzy branch, then substring-boost branch). -/
def considerTable (reference : String) (minSimilarity : ℚ) (t : String)
    (acc : Option String × ℚ) : Option String × ℚ :=
  let score := fuzzQ reference.toUpper t.toUpper
  let acc1 := if score > acc.2 ∧ score ≥ minSimilarity then (some t, score) else acc
  if strContainsSub t.toUpper reference.toUpper ∧ 3 ≤ reference.length
      ∧ (reference.length : ℚ) / (t.length : ℚ) > 3/10 then
    if score * (12/10) > acc1.2 ∧ score * (12/10) ≥ minSimilarity then
      (some t, score * (12/10))
    else acc1
  else acc1

/-- The loop of `_find_matching_table`: an exact case-insensitive match
returns immediately, otherwise the accumulator is updated table by table. -/
def findMatchGo (reference : String) (minSimilarity : ℚ) :
    List String → Option String × ℚ → Option String
  | [], acc => acc.1
  | t :: ts, acc =>
    if reference.toUpper = t.toUpper then some t
    else findMatchGo reference minSimilarity ts (considerTable reference minSimilarity t acc)

/-- `_find_matching_table(reference, table_names, min_similarity)`. -/
def findMatchingTable (reference : String) (tableNames : List String)
    (minSimilarity : ℚ) : Option String :=
  findMatchGo reference minSimilarity tableNames (none, 0)

/-- The `column_info` dict: keys are `properties["table"]` values (possibly
Python `None`, hence `Option String`) in insertion order. -/
abbrev ColumnInfo := List (Option String × List SchemaNode)

/-- Dict assignment `info[k] = cols` (replaces in place, else appends). -/
def infoSet : ColumnInfo → Option String → List SchemaNode → ColumnInfo
  | [], k, v => [(k, v)]
  | (k', v') :: rest, k, v =>
    if k' = k then (k, v) :: rest else (k', v') :: infoSet rest k v

/-- `info[k].append(c)`, creating `info[k] = []` first when absent. -/
def infoAppend : ColumnInfo → Option String → SchemaNode → ColumnInfo
  | [], k, c => [(k, [c])]
  | (k', v') :: rest, k, c =>
    if k' = k then (k, v' ++ [c]) :: rest else (k', v') :: infoAppend rest k c

/-- Dict lookup `info[k]`. -/
def infoGet (info : ColumnInfo) (k : Option String) : Option (List SchemaNode) :=
  (info.find? (fun p => p.1 = k)).map (·.2)

/-- The `column_info` / `table_names` building loop of
`_infer_foreign_keys_from_naming`: a table node resets its entry, a column
node is appended under its `properties["table"]` key. -/
def buildColumnInfo (nodes : List SchemaNode) : ColumnInfo :=
  nodes.foldl
    (fun info node =>
      if node.type = "table" then infoSet info (some node.name) []
      else if node.type = "column" then
        infoAppend info (bagGetStr node.properties "table") node
      else info)
    []

/-- `_find_primary_key_column(table_name, column_info)`: explicitly flagged
primary key first, then the PK naming patterns, then the first column. -/
def findPrimaryKeyColumn (tableName : String) (info : ColumnInfo) :
    Option SchemaNode :=
  match infoGet info (some tableName) with
  | none => none
  | some cols =>
    match cols.find? (fun c => bagGet c.properties "is_primary_key" == some (PVal.b true)) with
    | some c => some c
    | none =>
      let pkPatterns := ["ID", tableName ++ "_ID", "ID_" ++ tableName, tableName ++ "ID"]
      match pkPatterns.findSome? (fun p => cols.find? (fun c => c.name.toUpper == p.toUpper)) with
      | some c => some c
      | none => cols.head?

/-- `_calculate_confidence(reference, matched_table)`: the fuzzy score,
forced to 1.0 on an exact case-insensitive match, boosted by 1.1 (capped at
1.0) when the reference is a substring of the matched table, rounded to two
decimals. -/
def calculateConfidence (reference matchedTable : String) : ℚ :=
  let c0 := fuzzQ reference.toUpper matchedTable.toUpper
  let c1 :=
    if reference.toUpper = matchedTable.toUpper then 1
    else if strContainsSub matchedTable.toUpper reference.toUpper then
      min (c0 * (11/10)) 1
    else c0
  round2 c1

/-! ## The foreign-key inference pass
(`SchemaIntrospector._infer_foreign_keys_from_naming`) -/

/-- The mutable state of the inference loop: the `existing_fk_pairs` set
(kept as a list, membership only) and the `inferred_relationships` output. -/
structure InferState where
  pairs : List (String × String)
  out : List SchemaRelationship
deriving DecidableEq, Repr

/-- The `(source_id, target_id)` pair of a relationship. -/
def relPair (r : SchemaRelationship) : String × String := (r.source_id, r.target_id)

/-- The `existing_fk_pairs` built from the relationships already present:
the pairs of the `HAS_FOREIGN_KEY` ones, in order. -/
def fkPairsOf (rels : List SchemaRelationship) : List (String × String) :=
  (rels.filter (fun r => r.type == "HAS_FOREIGN_KEY")).map relPair

/-- The inferred relationship emitted for one accepted match (`table_name`
is the `column_info` key, rendered the way a Python f-string renders it). -/
def mkInferredRel (tableKey : Option String) (column : SchemaNode)
    (pattern reference matchedTable : String) (pkColumn : SchemaNode) :
    SchemaRelationship :=
  { source_id := column.id
    target_id := pkColumn.id
    type := "HAS_FOREIGN_KEY"
    properties :=
      [("constraint_name",
         PVal.s ("INFERRED_" ++ (tableKey.getD "None") ++ "_" ++ column.name)),
       ("inferred", PVal.b true),
       ("inference_method", PVal.s "naming_convention"),
       ("pattern_used", PVal.s pattern),
       ("confidence", PVal.n (calculateConfidence reference matchedTable))] }

/-- The body of the innermost loop (`for ref in potential_table_refs`):
resolve the reference, reject self-references and already-covered pairs,
locate the primary key and emit one inferred relationship. -/
def inferRefStep (threshold : ℚ) (tableNames : List String) (info : ColumnInfo)
    (tableKey : Option String) (column : SchemaNode) (pattern : String)
    (st : InferState) (reference : String) : InferState :=
  match findMatchingTable reference tableNames threshold with
  | none => st
  | some matchedTable =>
    if some matchedTable ≠ tableKey then
      match findPrimaryKeyColumn matchedTable info with
      | none => st
      | some pkColumn =>
        let p := (column.id, pkColumn.id)
        if p ∈ st.pairs then st
        else
          { pairs := st.pairs ++ [p]
            out := st.out ++ [mkInferredRel tableKey column pattern reference matchedTable pkColumn] }
    else st

/-- The `for pattern in fk_patterns` body: on a pattern match, fold the
reference step over the extracted references. -/
def inferPatternStep (threshold : ℚ) (tableNames : List String)
    (info : ColumnInfo) (tableKey : Option String) (column : SchemaNode)
    (st : InferState) (pattern : String) : InferState :=
  if matchesFkPattern column.name pattern then
    (extractTableReferences column.name pattern).foldl
      (inferRefStep threshold tableNames info tableKey column pattern) st
  else st

/-- The `for column in columns` body. -/
def inferColumnStep (threshold : ℚ) (tableNames : List String)
    (info : ColumnInfo) (tableKey : Option String)
    (st : InferState) (column : SchemaNode) : InferState :=
  fkPatterns.foldl (inferPatternStep threshold tableNames info tableKey column) st

/-- `_infer_foreign_keys_from_naming(nodes, existing_relationships)`:
the list of inferred `HAS_FOREIGN_KEY` relationships. -/
def inferForeignKeysFromNaming (threshold : ℚ) (nodes : List SchemaNode)
    (existingRelationships : List SchemaRelationship) : List SchemaRelationship :=
  let tableNames := (nodes.filter (fun n => n.type == "table")).map (·.name)
  let info := buildColumnInfo nodes
  (info.foldl
      (fun (st : InferState) (entry : Option String × List SchemaNode) =>
        (entry.2).foldl (inferColumnStep threshold tableNames info entry.1) st)
      { pairs := fkPairsOf existingRelationships, out := [] }).out

/-! ## Catalog rows and `introspect_oracle_schema` -/

/-- A row of `_get_tables` (`ALL_TABLES` joined with comments; the query
selects the literal `'TABLE'` as `TABLE_TYPE`). -/
structure TableRow where
  OWNER : String
  TABLE_NAME : String
  TABLE_TYPE : String
  COMMENTS : Option String
  NUM_ROWS : Option ℚ
deriving DecidableEq, Repr

/-- A row of `_get_columns`. -/
structure ColumnRow where
  COLUMN_NAME : String
  DATA_TYPE : String
  DATA_LENGTH : Option ℚ
  DATA_PRECISION : Option ℚ
  DATA_SCALE : Option ℚ
  NULLABLE : String
  DATA_DEFAULT : Option String
  COMMENTS : Option String
deriving DecidableEq, Repr

/-- A row of `_get_primary_keys`. -/
structure PkRow where
  CONSTRAINT_NAME : String
  TABLE_NAME : String
  COLUMN_NAME : String
deriving DecidableEq, Repr

/-- A row of `_get_foreign_keys`. -/
structure FkRow where
  CONSTRAINT_NAME : String
  TABLE_NAME : String
  COLUMN_NAME : String
  R_CONSTRAINT_NAME : String
  R_TABLE_NAME : String
  R_COLUMN_NAME : String
deriving DecidableEq, Repr

/-- The catalog metadata an introspection pass reads: the result rows of the
four `_get_*` queries, with `_get_columns` keyed by table name. -/
structure Catalog where
  tables : List TableRow
  columns : List (String × List ColumnRow)
  primaryKeys : List PkRow
  foreignKeys : List FkRow
deriving DecidableEq, Repr

/-- `_get_columns(table_name)` over a `Catalog`. -/
def catColumns (cat : Catalog) (tableName : String) : List ColumnRow :=
  ((cat.columns.find? (fun p => p.1 == tableName)).map (·.2)).getD []

/-- A string-or-null property value. -/
def optS : Option String → PVal
  | some v => PVal.s v
  | none => PVal.null

/-- A number-or-null property value. -/
def optN : Option ℚ → PVal
  | some v => PVal.n v
  | none => PVal.null

/-- `node.properties[key] = True` applied to the first node of the list with
the given id (the `for node in nodes: ... break` update loops). -/
def markFirst (key : String) (v : PVal) (targetId : String) :
    List SchemaNode → List SchemaNode
  | [] => []
  | n :: ns =>
    if n.id = targetId then { n with properties := bagSet n.properties key v } :: ns
    else n :: markFirst key v targetId ns

/-- The table node built for one `_get_tables` row. -/
def mkTableNode (d : String) (t : TableRow) : SchemaNode :=
  { id := d ++ "_table_" ++ t.TABLE_NAME
    type := "table"
    name := t.TABLE_NAME
    properties :=
      [("database", PVal.s d),
       ("schema", PVal.s t.OWNER),
       ("table_type", PVal.s t.TABLE_TYPE),
       ("comments", optS t.COMMENTS),
       ("num_rows", optN t.NUM_ROWS)] }

/-- The column node built for one `_get_columns` row of a table. -/
def mkColumnNode (d tableName : String) (c : ColumnRow) : SchemaNode :=
  { id := d ++ "_column_" ++ tableName ++ "_" ++ c.COLUMN_NAME
    type := "column"
    name := c.COLUMN_NAME
    properties :=
      [("database", PVal.s d),
       ("table", PVal.s tableName),
       ("data_type", PVal.s c.DATA_TYPE),
       ("data_length", optN c.DATA_LENGTH),
       ("data_precision", optN c.DATA_PRECISION),
       ("data_scale", optN c.DATA_SCALE),
       ("nullable", PVal.b (c.NULLABLE == "Y")),
       ("default_value", optS c.DATA_DEFAULT),
       ("comments", optS c.COMMENTS),
       ("is_primary_key", PVal.b false),
       ("is_foreign_key", PVal.b false)] }

/-- The declared `HAS_FOREIGN_KEY` relationship for one `_get_foreign_keys`
row. -/
def mkDeclaredFkRel (d : String) (fk : FkRow) : SchemaRelationship :=
  { source_id := d ++ "_column_" ++ fk.TABLE_NAME ++ "_" ++ fk.COLUMN_NAME
    target_id := d ++ "_column_" ++ fk.R_TABLE_NAME ++ "_" ++ fk.R_COLUMN_NAME
    type := "HAS_FOREIGN_KEY"
    properties :=
      [("constraint_name", PVal.s fk.CONSTRAINT_NAME),
       ("r_constraint_name", PVal.s fk.R_CONSTRAINT_NAME),
       ("inferred", PVal.b false)] }

/-- The nodes and relationships of `introspect_oracle_schema` before the
inference step: database node, table nodes with `HAS_TABLE` edges, column
nodes with `HAS_COLUMN` edges, primary-key flags, declared foreign keys. -/
def introspectBase (d : String) (schemaName : Option String) (cat : Catalog) :
    List SchemaNode × List SchemaRelationship :=
  let databaseId := "database_" ++ d
  let dbNode : SchemaNode :=
    { id := databaseId
      type := "database"
      name := d
      properties :=
        [("description", PVal.s ("Oracle Database: " ++ d)),
         ("database_type", PVal.s "Oracle"),
         ("schema_filter", PVal.s (schemaName.getD "all_schemas")),
         ("introspection_timestamp", PVal.null)] }
  let tableNodes := cat.tables.map (mkTableNode d)
  let hasTableRels := tableNodes.map (fun t =>
    { source_id := databaseId, target_id := t.id, type := "HAS_TABLE",
      properties := [] : SchemaRelationship })
  let columnNodes := tableNodes.flatMap (fun t =>
    (catColumns cat t.name).map (mkColumnNode d t.name))
  let hasColumnRels := tableNodes.flatMap (fun t =>
    (catColumns cat t.name).map (fun c =>
      { source_id := t.id,
        target_id := d ++ "_column_" ++ t.name ++ "_" ++ c.COLUMN_NAME,
        type := "HAS_COLUMN", properties := [] : SchemaRelationship }))
  let nodes0 := dbNode :: tableNodes ++ columnNodes
  let nodes1 := cat.primaryKeys.foldl
    (fun ns pk =>
      markFirst "is_primary_key" (PVal.b true)
        (d ++ "_column_" ++ pk.TABLE_NAME ++ "_" ++ pk.COLUMN_NAME) ns)
    nodes0
  let nodes2 := cat.foreignKeys.foldl
    (fun ns fk =>
      markFirst "is_foreign_key" (PVal.b true)
        (d ++ "_column_" ++ fk.TABLE_NAME ++ "_" ++ fk.COLUMN_NAME) ns)
    nodes1
  let declaredFkRels := cat.foreignKeys.map (mkDeclaredFkRel d)
  (nodes2, hasTableRels ++ hasColumnRels ++ declaredFkRels)

/-- `introspect_oracle_schema(schema_name, database_name)` as a pure
function of the settings and the catalog query results. -/
def introspectOracleSchema (cfg : Settings) (cat : Catalog)
    (schemaName : Option String) (databaseName : Option String) : SchemaGraph :=
  let d := databaseName.getD cfg.default_database_name
  let nodes := (introspectBase d schemaName cat).1
  let rels := (introspectBase d schemaName cat).2
  if cfg.enable_fk_inference then
    let inferred :=
      inferForeignKeysFromNaming cfg.fk_inference_similarity_threshold nodes rels
    { nodes := inferred.foldl
        (fun ns r => markFirst "is_foreign_key" (PVal.b true) r.source_id ns) nodes
      relationships := rels ++ inferred }
  else
    { nodes := nodes, relationships := rels }

/-! ## The graph store (`SchemaIntrospector.store_schema_in_neo4j`)

The Neo4j database is modelled as the list of nodes and relationship rows it
holds.  Every node is created by the one `CREATE` statement of the store
operation, so a stored node carries exactly the top-level keys `id`, `type`,
`name` and `properties` — the same shape as `SchemaNode` — and every stored
relationship has the Neo4j type `RELATIONSHIP` with the logical type and the
bag kept in its `type`/`properties` fields, the same shape as
`SchemaRelationship`.  Relationship rows reference their endpoints by the
`id` property; this coincides with Neo4j's node-identity semantics whenever
node ids are unique, and relationship creation replicates a row once per
matching source/target node pair, which is exactly Cypher's `MATCH`/`MATCH`/
`CREATE` row semantics. -/

structure GraphStore where
  nodes : List SchemaNode
  rels : List SchemaRelationship
deriving DecidableEq, Repr

/-- The empty store. -/
def emptyStore : GraphStore := ⟨[], []⟩

/-- Cypher top-level property access `n.<key>` for the string-valued keys of
a stored node.  The store's `CREATE` writes exactly the keys `id`, `type`,
`name` and `properties`; the last holds a map (never equal to a string), and
any other key — in particular `database` — is absent, i.e. Cypher `null`. -/
def cypherStrProp (n : SchemaNode) (k : String) : Option String :=
  if k = "id" then some n.id
  else if k = "type" then some n.type
  else if k = "name" then some n.name
  else none

/-- The `WHERE` condition of the multi-database delete:
`n.database = $database_name OR n.id STARTS WITH $db_prefix` with
`db_prefix = "database_" + database_name`. -/
def multiDbDeleteCond (d : String) (n : SchemaNode) : Bool :=
  (cypherStrProp n "database" == some d)
    || (("database_" ++ d).isPrefixOf n.id)

/-- `MATCH (n) WHERE <cond> DETACH DELETE n`: drop the matching nodes and
every relationship attached to one of them. -/
def detachDeleteWhere (cond : SchemaNode → Bool) (s : GraphStore) : GraphStore :=
  let deadIds := (s.nodes.filter cond).map (·.id)
  { nodes := s.nodes.filter (fun n => !(cond n))
    rels := s.rels.filter (fun r =>
      !(deadIds.contains r.source_id) && !(deadIds.contains r.target_id)) }

/-- The timestamp step: every `database`-typed node of the graph gets
`properties["introspection_timestamp"] = <now>`. -/
def stampTimestamp (ts : String) (g : SchemaGraph) : SchemaGraph :=
  { nodes := g.nodes.map (fun n =>
      if n.type = "database" then
        { n with properties := bagSet n.properties "introspection_timestamp" (PVal.s ts) }
      else n)
    relationships := g.relationships }

/-- Number of stored nodes with the given `id` property. -/
def countId (nodes : List SchemaNode) (i : String) : Nat :=
  nodes.countP (fun n => n.id == i)

/-- `store_schema_in_neo4j(schema, database_name)`: clear (everything in
single-database mode, the `multiDbDeleteCond` matches in multi-database
mode), stamp the timestamp, create every node, then create every
relationship with `MATCH (source {id}) MATCH (target {id}) CREATE ...` —
one row per matching source/target pair, hence zero rows (silently, with no
error) when an endpoint id is absent. -/
def storeSchemaInNeo4j (cfg : Settings) (ts : String) (s : GraphStore)
    (schema : SchemaGraph) (databaseName : Option String) : GraphStore :=
  let d := databaseName.getD cfg.default_database_name
  let s1 :=
    if !cfg.support_multiple_databases then emptyStore
    else detachDeleteWhere (multiDbDeleteCond d) s
  let g := stampTimestamp ts schema
  let nodes2 := s1.nodes ++ g.nodes
  let newRels := g.relationships.foldl
    (fun acc rel =>
      acc ++ List.replicate
        (countId nodes2 rel.source_id * countId nodes2 rel.target_id) rel)
    []
  { nodes := nodes2, rels := s1.rels ++ newRels }

/-! ## Relevance search (`SchemaIntrospector.find_relevant_schema`) -/

/-- One relevant column of a search result. -/
structure ColumnHit where
  name : String
  score : ℚ
  properties : Bag
deriving DecidableEq, Repr

/-- One search result row. -/
structure TableHit where
  table_name : String
  table_score : ℚ
  columns : List ColumnHit
deriving DecidableEq, Repr

/-- `query_text.lower().split()`: lowercase, split on whitespace runs. -/
def pySplitLower (s : String) : List String :=
  (s.toLower.split Char.isWhitespace).filter (· ≠ "")

/-- The running-maximum loop `for word in query_words: ... max(...)` with
`fuzz.ratio(word.lower(), target.lower()) / 100.0`. -/
def maxWordScore (words : List String) (target : String) : ℚ :=
  words.foldl (fun m w => max m (fuzzQ w.toLower target.toLower)) 0

/-- The per-table body of `find_relevant_schema`: score the table name and
its columns and keep the table iff its score meets the threshold or some
column does. -/
def relevantEntry (threshold : ℚ) (words : List String)
    (row : String × List (String × Bag)) : Option TableHit :=
  let tScore := maxWordScore words row.1
  let cols := row.2.filterMap (fun c =>
    let cScore := maxWordScore words c.1
    if cScore ≥ threshold then some (⟨c.1, cScore, c.2⟩ : ColumnHit) else none)
  if tScore ≥ threshold ∨ cols ≠ [] then some ⟨row.1, tScore, cols⟩ else none

/-- `relevant_tables.sort(key=lambda x: x["table_score"], reverse=True)`
(stable, descending). -/
def sortByScoreDesc (l : List TableHit) : List TableHit :=
  l.mergeSort (fun a b => decide (b.table_score ≤ a.table_score))

/-- `find_relevant_schema` applied to the rows the Cypher query returned. -/
def findRelevantSchemaRows (rows : List (String × List (String × Bag)))
    (queryText : String) (threshold : ℚ) : List TableHit :=
  sortByScoreDesc (rows.filterMap (relevantEntry threshold (pySplitLower queryText)))

/-- The target nodes of `(parent)-[:RELATIONSHIP {type: relType}]->(child
{type: nodeType})` edges out of `parentId`. -/
def childNodes (g : GraphStore) (parentId relType nodeType : String) :
    List SchemaNode :=
  (g.rels.filter (fun r => r.type == relType && r.source_id == parentId)).flatMap
    (fun r => g.nodes.filter (fun n => n.id == r.target_id && n.type == nodeType))

/-- The bindings of the search's Cypher query: every database node, its
tables via `HAS_TABLE`, their columns via `HAS_COLUMN` (note: the query is
not filtered by database). -/
def schemaDataBindings (g : GraphStore) : List (String × (String × Bag)) :=
  (g.nodes.filter (fun n => n.type == "database")).flatMap (fun db =>
    (childNodes g db.id "HAS_TABLE" "table").flatMap (fun t =>
      (childNodes g t.id "HAS_COLUMN" "column").map (fun c =>
        (t.name, (c.name, c.properties)))))

/-- Group the bindings by table name (the Cypher `collect` aggregation keyed
by `table.name`), keeping the order of first appearance and appending within
a group. -/
def loadSchemaData (g : GraphStore) : List (String × List (String × Bag)) :=
  (schemaDataBindings g).foldl
    (fun acc p => insertGrouped acc p.1 p.2)
    []
where
  insertGrouped (acc : List (String × List (String × Bag))) (k : String)
      (v : String × Bag) : List (String × List (String × Bag)) :=
    if acc.any (fun q => q.1 == k) then
      acc.map (fun q => if q.1 == k then (q.1, q.2 ++ [v]) else q)
    else acc ++ [(k, [v])]

/-- `find_relevant_schema(query_text, similarity_threshold)` over a stored
graph (its signature has no `database_name` parameter; the query reads every
database's tables). -/
def findRelevantSchemaStore (g : GraphStore) (queryText : String)
    (threshold : ℚ) : List TableHit :=
  findRelevantSchemaRows (loadSchemaData g) queryText threshold

/-! ## Schema context (`SchemaIntrospector.get_schema_context`)

The Cypher query of `get_schema_context` nests a `collect(DISTINCT ...)`
inside another `collect(DISTINCT ...)`, which Neo4j's planner would reject;
we model the evidently intended join semantics: per requested table, its
columns, and per column the foreign-key edges out of it with the referenced
column and its parent table (`OPTIONAL MATCH` contributing a null row when a
pattern finds nothing).  The aggregation groups rows by `table.name`, which
only merges distinct table nodes sharing a name; we keep one row per table
node, which produces the same set of entries. -/

/-- `collect(DISTINCT ...)`: drop later duplicates, keep first occurrences. -/
def distinctKeepFirst {α : Type} [DecidableEq α] : List α → List α
  | [] => []
  | a :: rest => a :: distinctKeepFirst (rest.filter (fun x => x ≠ a))
termination_by l => l.length
decreasing_by
  simp only [List.length_cons]
  exact Nat.lt_succ_of_le (rest.length_filter_le _)

/-- One `foreign_keys` entry of a context column (`ref_table`, `ref_column`
and `constraint` are `null` when the corresponding `OPTIONAL MATCH` found
nothing). -/
structure FkCtxEntry where
  ref_table : Option String
  ref_column : Option String
  constraint : Option Bag
deriving DecidableEq, Repr

/-- One column of a context row. -/
structure CtxColumn where
  name : String
  properties : Bag
  foreign_keys : List FkCtxEntry
deriving DecidableEq, Repr

/-- One context row (one requested table). -/
structure CtxTable where
  table_name : String
  columns : List CtxColumn
deriving DecidableEq, Repr

/-- One entry of the derived `relationships` list. -/
structure CtxRel where
  from_table : String
  from_column : String
  to_table : String
  to_column : Option String
deriving DecidableEq, Repr

/-- The full return value of `get_schema_context`. -/
structure SchemaContext where
  tables : List CtxTable
  relationships : List CtxRel
deriving DecidableEq, Repr

/-- The table nodes of the `(ref_column)<-[:RELATIONSHIP {type:
'HAS_COLUMN'}]-(ref_table)` pattern. -/
def parentTables (g : GraphStore) (colId : String) : List SchemaNode :=
  (g.rels.filter (fun r => r.type == "HAS_COLUMN" && r.target_id == colId)).flatMap
    (fun r => g.nodes.filter (fun n => n.id == r.source_id && n.type == "table"))

/-- The entries the second `OPTIONAL MATCH` produces for one foreign-key
edge: one per parent table of the referenced column, or a single entry with
a `null` `ref_table` when it has none. -/
def refTableEntries (r : SchemaRelationship) (rc : SchemaNode)
    (ps : List SchemaNode) : List FkCtxEntry :=
  if ps.isEmpty then [⟨none, some rc.name, some r.properties⟩]
  else ps.map (fun rt => (⟨some rt.name, some rc.name, some r.properties⟩ : FkCtxEntry))

/-- The `foreign_keys` entries collected for one column: each
`HAS_FOREIGN_KEY` edge out of it paired with the referenced column node and
its parent table(s); a null row when either `OPTIONAL MATCH` fails. -/
def fkEntriesFor (g : GraphStore) (c : SchemaNode) : List FkCtxEntry :=
  let bound :=
    (g.rels.filter (fun r => r.type == "HAS_FOREIGN_KEY" && r.source_id == c.id)).flatMap
      (fun r =>
        (g.nodes.filter (fun n => n.id == r.target_id && n.type == "column")).flatMap
          (fun rc => refTableEntries r rc (parentTables g rc.id)))
  if bound.isEmpty then [⟨none, none, none⟩] else distinctKeepFirst bound

/-- The rows returned by the context query: one per table node whose name is
in `table_names`, with its (distinct) columns and their foreign keys.  A
table with no `HAS_COLUMN` edge yields no row (the column `MATCH` is not
optional). -/
def contextRows (g : GraphStore) (tableNames : List String) : List CtxTable :=
  (g.nodes.filter (fun n => n.type == "table" && tableNames.contains n.name)).filterMap
    (fun t =>
      let cols := (childNodes g t.id "HAS_COLUMN" "column").map
        (fun c => (⟨c.name, c.properties, fkEntriesFor g c⟩ : CtxColumn))
      if cols.isEmpty then none else some ⟨t.name, distinctKeepFirst cols⟩)

/-- The Python filter deriving `relationships`: keep a foreign key iff its
`ref_table` is truthy (non-null, non-empty) and among the requested names. -/
def contextRelationships (rows : List CtxTable) (tableNames : List String) :
    List CtxRel :=
  rows.flatMap (fun row =>
    row.columns.flatMap (fun c =>
      c.foreign_keys.filterMap (fun fk =>
        match fk.ref_table with
        | some rt =>
          if rt ≠ "" ∧ rt ∈ tableNames then
            some ⟨row.table_name, c.name, rt, fk.ref_column⟩
          else none
        | none => none)))

/-- `get_schema_context(table_names)` over a stored graph. -/
def getSchemaContext (g : GraphStore) (tableNames : List String) :
    SchemaContext :=
  let rows := contextRows g tableNames
  { tables := rows, relationships := contextRelationships rows tableNames }

/-! ## Specification-side definitions and concrete instances used by the
theorems below -/

/-- The substring-containment bonus condition of `_find_matching_table`: the
reference is a case-insensitive substring of the table name, is at least 3
characters long, and covers more than 30% of the table name. -/
def boostEligible (reference t : String) : Prop :=
  strContainsSub t.toUpper reference.toUpper = true ∧ 3 ≤ reference.length
    ∧ (reference.length : ℚ) / (t.length : ℚ) > 3/10

instance (reference t : String) : Decidable (boostEligible reference t) := by
  unfold boostEligible; infer_instance

/-- Following the specification's words ("the table name maximizing a
normalized edit-similarity score ... accepted only if the score meets or
exceeds a configurable inference threshold", with the substring-containment
bonus boosting the score by 1.2): the resolution score at which
`_find_matching_table` accepts a non-exactly-matching table. -/
def acceptanceScoreSpec (reference t : String) : ℚ :=
  let score := fuzzQ reference.toUpper t.toUpper
  if boostEligible reference t then score * (12/10) else score

/-- The disjunction of the two acceptance guards of `_find_matching_table`
for one table: the fuzzy score clears the threshold, or the substring bonus
applies and the boosted score clears it. -/
def matchAccept (reference : String) (minSimilarity : ℚ) (t : String) : Prop :=
  minSimilarity ≤ fuzzQ reference.toUpper t.toUpper ∨
    (boostEligible reference t ∧
      minSimilarity ≤ fuzzQ reference.toUpper t.toUpper * (12/10))

instance (reference : String) (minSimilarity : ℚ) (t : String) :
    Decidable (matchAccept reference minSimilarity t) := by
  unfold matchAccept; infer_instance

/-- Invariant of the inference loop relative to the initial
`existing_fk_pairs`: the set contains the initial pairs and the pair of
every emitted relationship, no emitted pair is an initial pair or a repeat,
and every emitted relationship is `HAS_FOREIGN_KEY`-typed. -/
def pairsInv (initPairs : List (String × String)) (st : InferState) : Prop :=
  (∀ p ∈ initPairs, p ∈ st.pairs) ∧
  (∀ r ∈ st.out,
    relPair r ∈ st.pairs ∧ relPair r ∉ initPairs ∧ r.type = "HAS_FOREIGN_KEY") ∧
  (st.out.map relPair).Nodup

/-- The relationships of a graph that the inference pass emitted
(`properties["inferred"]` is `True`). -/
def inferredRelsOf (g : SchemaGraph) : List SchemaRelationship :=
  g.relationships.filter (fun r => bagGet r.properties "inferred" == some (PVal.b true))

/-- Example catalog: `ORDERS(ID, CUSTOMER_ID)` and `CUSTOMERS(ID)` with
declared primary keys and no declared foreign key. -/
def ordersCatalog : Catalog :=
  { tables := [⟨"HR", "ORDERS", "TABLE", none, none⟩,
               ⟨"HR", "CUSTOMERS", "TABLE", none, none⟩]
    columns :=
      [("ORDERS", [⟨"ID", "NUMBER", none, none, none, "N", none, none⟩,
                   ⟨"CUSTOMER_ID", "NUMBER", none, none, none, "Y", none, none⟩]),
       ("CUSTOMERS", [⟨"ID", "NUMBER", none, none, none, "N", none, none⟩])]
    primaryKeys := [⟨"PK_ORDERS", "ORDERS", "ID"⟩, ⟨"PK_CUSTOMERS", "CUSTOMERS", "ID"⟩]
    foreignKeys := [] }

/-- Example catalog: a single table `T` with a single column `C`. -/
def oneTableCatalog : Catalog :=
  { tables := [⟨"HR", "T", "TABLE", none, none⟩]
    columns := [("T", [⟨"C", "NUMBER", none, none, none, "N", none, none⟩])]
    primaryKeys := []
    foreignKeys := [] }

/-- The graph introspected from `oneTableCatalog` for database `db1`. -/
def oneTableGraph : SchemaGraph :=
  introspectOracleSchema defaultSettings oneTableCatalog none (some "db1")

/-- A minimal already-introspected graph for a database named `db12`. -/
def db12Graph : SchemaGraph :=
  { nodes := [⟨"database_db12", "database", "db12", []⟩,
              ⟨"db12_table_T", "table", "T", [("database", PVal.s "db12")]⟩]
    relationships := [⟨"database_db12", "db12_table_T", "HAS_TABLE", []⟩] }

/-- A minimal already-introspected graph for a database named `db1`. -/
def db1Graph : SchemaGraph :=
  { nodes := [⟨"database_db1", "database", "db1", []⟩]
    relationships := [] }

/-- A graph whose single relationship references node ids that are absent
from its node list. -/
def danglingRelGraph : SchemaGraph :=
  { nodes := [⟨"n1", "table", "T", []⟩]
    relationships := [⟨"n1", "missing", "HAS_COLUMN", []⟩] }

/-- A store holding the subgraphs of two databases (`db1` with table
`ALPHA`, `db2` with table `BRAVO`). -/
def twoDbStore : GraphStore :=
  { nodes := [⟨"database_db1", "database", "db1", []⟩,
              ⟨"database_db2", "database", "db2", []⟩,
              ⟨"db1_table_ALPHA", "table", "ALPHA", [("database", PVal.s "db1")]⟩,
              ⟨"db2_table_BRAVO", "table", "BRAVO", [("database", PVal.s "db2")]⟩,
              ⟨"db1_column_ALPHA_X", "column", "X", [("database", PVal.s "db1")]⟩,
              ⟨"db2_column_BRAVO_Y", "column", "Y", [("database", PVal.s "db2")]⟩]
    rels := [⟨"database_db1", "db1_table_ALPHA", "HAS_TABLE", []⟩,
             ⟨"database_db2", "db2_table_BRAVO", "HAS_TABLE", []⟩,
             ⟨"db1_table_ALPHA", "db1_column_ALPHA_X", "HAS_COLUMN", []⟩,
             ⟨"db2_table_BRAVO", "db2_column_BRAVO_Y", "HAS_COLUMN", []⟩] }

/-- Example catalog whose best fuzzy similarity for the reference
`CUSTOMER_DETA` (from column `SRC.CUSTOMER_DETA_ID`) is exactly 0.65
against `CUSTOMER_DETAILS_ARCHIVE_ZZ`, with no exact match. -/
def archiveCatalog : Catalog :=
  { tables := [⟨"HR", "SRC", "TABLE", none, none⟩,
               ⟨"HR", "CUSTOMER_DETAILS_ARCHIVE_ZZ", "TABLE", none, none⟩]
    columns :=
      [("SRC", [⟨"CUSTOMER_DETA_ID", "NUMBER", none, none, none, "N", none, none⟩]),
       ("CUSTOMER_DETAILS_ARCHIVE_ZZ",
        [⟨"ID", "NUMBER", none, none, none, "N", none, none⟩])]
    primaryKeys := []
    foreignKeys := [] }

/-- Example catalog with two declared foreign-key constraints (different
constraint names) on the same column pair `A.X -> B.Y`. -/
def dupFkCatalog : Catalog :=
  { tables := [⟨"HR", "A", "TABLE", none, none⟩, ⟨"HR", "B", "TABLE", none, none⟩]
    columns :=
      [("A", [⟨"X", "NUMBER", none, none, none, "N", none, none⟩]),
       ("B", [⟨"Y", "NUMBER", none, none, none, "N", none, none⟩])]
    primaryKeys := []
    foreignKeys := [⟨"FK_A_X_1", "A", "X", "PK_B", "B", "Y"⟩,
                    ⟨"FK_A_X_2", "A", "X", "PK_B", "B", "Y"⟩] }

/-- Hand-written node list: tables `PRODUCTS(ID)` and `ITEMS(PRODUCT_ID)`. -/
def productNodes : List SchemaNode :=
  [⟨"db1_table_PRODUCTS", "table", "PRODUCTS", [("database", PVal.s "db1")]⟩,
   ⟨"db1_table_ITEMS", "table", "ITEMS", [("database", PVal.s "db1")]⟩,
   ⟨"db1_column_PRODUCTS_ID", "column", "ID",
     [("table", PVal.s "PRODUCTS"), ("is_primary_key", PVal.b true)]⟩,
   ⟨"db1_column_ITEMS_PRODUCT_ID", "column", "PRODUCT_ID",
     [("table", PVal.s "ITEMS"), ("is_primary_key", PVal.b false)]⟩]

/-- The first relationship the inference pass emits on `productNodes`. -/
def productInferredRel : SchemaRelationship :=
  (inferForeignKeysFromNaming (7/10) productNodes []).getD 0 ⟨"", "", "", []⟩

/-- A stored graph with tables `ORDERS`, `CUSTOMERS` and `SHIPPERS`, where
`ORDERS` has foreign keys into both other tables. -/
def ordersStore : GraphStore :=
  { nodes := [⟨"db1_table_ORDERS", "table", "ORDERS", []⟩,
              ⟨"db1_table_CUSTOMERS", "table", "CUSTOMERS", []⟩,
              ⟨"db1_table_SHIPPERS", "table", "SHIPPERS", []⟩,
              ⟨"db1_column_ORDERS_CUSTOMER_ID", "column", "CUSTOMER_ID", []⟩,
              ⟨"db1_column_ORDERS_SHIPPER_ID", "column", "SHIPPER_ID", []⟩,
              ⟨"db1_column_CUSTOMERS_ID", "column", "ID", []⟩,
              ⟨"db1_column_SHIPPERS_ID", "column", "ID", []⟩]
    rels := [⟨"db1_table_ORDERS", "db1_column_ORDERS_CUSTOMER_ID", "HAS_COLUMN", []⟩,
             ⟨"db1_table_ORDERS", "db1_column_ORDERS_SHIPPER_ID", "HAS_COLUMN", []⟩,
             ⟨"db1_table_CUSTOMERS", "db1_column_CUSTOMERS_ID", "HAS_COLUMN", []⟩,
             ⟨"db1_table_SHIPPERS", "db1_column_SHIPPERS_ID", "HAS_COLUMN", []⟩,
             ⟨"db1_column_ORDERS_CUSTOMER_ID", "db1_column_CUSTOMERS_ID", "HAS_FOREIGN_KEY",
               [("inferred", PVal.b false)]⟩,
             ⟨"db1_column_ORDERS_SHIPPER_ID", "db1_column_SHIPPERS_ID", "HAS_FOREIGN_KEY",
               [("inferred", PVal.b false)]⟩] }

/-! ## Theorems -/

set_option maxRecDepth 1000000

/-- C1: on a catalog with table `ORDERS` (column `CUSTOMER_ID`), table
`CUSTOMERS`, and no declared foreign key, introspection with inference
enabled at threshold 0.7 emits exactly one inferred `HAS_FOREIGN_KEY`
relationship, from the `ORDERS.CUSTOMER_ID` column node to the primary-key
column node of `CUSTOMERS`, with `inferred = true`, `confidence = 1.0` and
pattern `{table}_ID`; that pattern extracts the reference `CUSTOMER`, and
the target node is the one flagged `is_primary_key`. -/
theorem c1_exact_match_inference :
    inferredRelsOf (introspectOracleSchema defaultSettings ordersCatalog none (some "db1")) =
      [{ source_id := "db1_column_ORDERS_CUSTOMER_ID"
         target_id := "db1_column_CUSTOMERS_ID"
         type := "HAS_FOREIGN_KEY"
         properties := [("constraint_name", PVal.s "INFERRED_ORDERS_CUSTOMER_ID"),
                        ("inferred", PVal.b true),
                        ("inference_method", PVal.s "naming_convention"),
                        ("pattern_used", PVal.s "{table}_ID"),
                        ("confidence", PVal.n 1)] }]
    ∧ ((introspectOracleSchema defaultSettings ordersCatalog none (some "db1")).nodes.find?
        (fun n => n.id == "db1_column_CUSTOMERS_ID")).map
          (fun n => bagGet n.properties "is_primary_key") = some (some (PVal.b true))
    ∧ extractTableReferences "CUSTOMER_ID" "{table}_ID" = ["CUSTOMER"] := by
  with_unfolding_all decide

/-- C2 (code bug): in the default multi-database mode, storing the same
introspected one-table graph twice for `db1` duplicates the table node (and
multiplies the relationship rows): the delete query matches neither the
nested `properties.database` tag nor the `db1_table_...`/`db1_column_...`
ids, so only the `database_db1` node is cleared. -/
theorem c2_store_twice_duplicates_nodes :
    countId (storeSchemaInNeo4j defaultSettings "t1" emptyStore oneTableGraph (some "db1")).nodes
      "db1_table_T" = 1 ∧
    countId (storeSchemaInNeo4j defaultSettings "t2"
      (storeSchemaInNeo4j defaultSettings "t1" emptyStore oneTableGraph (some "db1"))
      oneTableGraph (some "db1")).nodes "db1_table_T" = 2 ∧
    (storeSchemaInNeo4j defaultSettings "t1" emptyStore oneTableGraph (some "db1")).rels.length = 2 ∧
    (storeSchemaInNeo4j defaultSettings "t2"
      (storeSchemaInNeo4j defaultSettings "t1" emptyStore oneTableGraph (some "db1"))
      oneTableGraph (some "db1")).rels.length = 7 := by
  with_unfolding_all decide

/-- C3 (code bug): in multi-database mode, storing for database `db1` after
a store for database `db12` deletes `db12`'s database node, because the
delete condition `n.id STARTS WITH "database_db1"` matches
`database_db12`: the write for one database is not confined to its own
namespace. -/
theorem c3_store_other_database_deletes_neighbor :
    countId (storeSchemaInNeo4j defaultSettings "t1" emptyStore db12Graph (some "db12")).nodes
      "database_db12" = 1 ∧
    countId (storeSchemaInNeo4j defaultSettings "t2"
      (storeSchemaInNeo4j defaultSettings "t1" emptyStore db12Graph (some "db12"))
      db1Graph (some "db1")).nodes "database_db12" = 0 := by
  with_unfolding_all decide

/-- C9 (code bug): `find_relevant_schema` has no `database_name` parameter
and its query is not scoped to one database — searching a store holding two
databases returns tables of both. -/
theorem c9_search_has_no_database_scope :
    (findRelevantSchemaStore twoDbStore "alpha bravo" (6/10)).map (·.table_name)
      = ["ALPHA", "BRAVO"] := by
  with_unfolding_all decide

/-- C10 (counterexample): storing a graph whose only relationship references
a target id absent from the store completes without error and simply
creates no relationship — the `MATCH`/`MATCH`/`CREATE` insertion produces
zero rows instead of failing. -/
theorem c10_missing_endpoint_creates_nothing :
    (storeSchemaInNeo4j defaultSettings "t1" emptyStore danglingRelGraph (some "db1")).rels = []
    ∧ (storeSchemaInNeo4j defaultSettings "t1" emptyStore danglingRelGraph
        (some "db1")).nodes.length = 1 := by
  with_unfolding_all decide

/-- C5 (counterexample): the reference `CUSTOMER_DETA` (from column
`SRC.CUSTOMER_DETA_ID`) has no exact table-name match and best fuzzy
similarity exactly 0.65 over the catalog's tables, yet an inferred edge IS
produced for it: the substring-containment bonus boosts 0.65 to 0.78 ≥ 0.7
against `CUSTOMER_DETAILS_ARCHIVE_ZZ`. -/
theorem c5_edge_produced_at_similarity_065 :
    (∀ t ∈ ["SRC", "CUSTOMER_DETAILS_ARCHIVE_ZZ"], "CUSTOMER_DETA".toUpper ≠ t.toUpper)
    ∧ (["SRC", "CUSTOMER_DETAILS_ARCHIVE_ZZ"].map
        (fun t => fuzzQ "CUSTOMER_DETA".toUpper t.toUpper)).foldl max 0 = 13/20
    ∧ extractTableReferences "CUSTOMER_DETA_ID" "{table}_ID" = ["CUSTOMER_DETA"]
    ∧ (inferredRelsOf (introspectOracleSchema defaultSettings archiveCatalog none (some "db1"))).map
        (·.source_id) = ["db1_column_SRC_CUSTOMER_DETA_ID"] := by
  with_unfolding_all decide

/-- C8 (counterexample): when the catalog reports two foreign-key
constraints (different names) on the same column pair, the introspected
graph contains two `HAS_FOREIGN_KEY` relationships with the same
`(source_id, target_id)` pair — the declared-FK loop performs no
deduplication. -/
theorem c8_duplicate_declared_pairs :
    ¬ (((introspectOracleSchema defaultSettings dupFkCatalog none (some "db1")).relationships.filter
          (fun r => r.type == "HAS_FOREIGN_KEY")).map relPair).Nodup := by
  with_unfolding_all decide

/-- If `f` succeeds only where `g` does, `filterMap f` is no longer than
`filterMap g`. -/
theorem length_filterMap_mono {α β : Type} (f g : α → Option β)
    (h : ∀ a, (f a).isSome → (g a).isSome) (l : List α) :
    (l.filterMap f).length ≤ (l.filterMap g).length := by
  induction l with
  | nil => simp
  | cons a t ih =>
    cases hf : f a with
    | none =>
      cases hg : g a <;> simp [List.filterMap_cons, hf, hg] <;> omega
    | some b =>
      have hs := h a (by simp [hf])
      cases hg : g a with
      | none => simp [hg] at hs
      | some c => simp [List.filterMap_cons, hf, hg]; omega

/-- A table kept by the search at the higher threshold is kept at the lower
one: its table score clears the lower threshold, and each relevant column
stays relevant. -/
theorem relevantEntry_isSome_mono (t1 t2 : ℚ) (h : t1 ≤ t2) (words : List String)
    (row : String × List (String × Bag)) :
    (relevantEntry t2 words row).isSome → (relevantEntry t1 words row).isSome := by
  intro hsome
  simp only [relevantEntry] at hsome ⊢
  split at hsome
  case isTrue hcond =>
    have hlen := length_filterMap_mono
      (fun c : String × Bag =>
        if maxWordScore words c.1 ≥ t2 then some (⟨c.1, maxWordScore words c.1, c.2⟩ : ColumnHit) else none)
      (fun c : String × Bag =>
        if maxWordScore words c.1 ≥ t1 then some (⟨c.1, maxWordScore words c.1, c.2⟩ : ColumnHit) else none)
      (fun c hc => by
        by_cases h2 : maxWordScore words c.1 ≥ t2
        · simp [le_trans h h2]
        · simp [h2] at hc)
      row.2
    rcases hcond with hts | hcols
    · have ht1 : maxWordScore words row.1 ≥ t1 := le_trans h hts
      simp [ht1]
    · have h2 : ((row.2).filterMap (fun c : String × Bag =>
        if maxWordScore words c.1 ≥ t2 then some (⟨c.1, maxWordScore words c.1, c.2⟩ : ColumnHit) else none)).length > 0 := by
        cases hq : (row.2).filterMap (fun c : String × Bag =>
          if maxWordScore words c.1 ≥ t2 then some (⟨c.1, maxWordScore words c.1, c.2⟩ : ColumnHit) else none) with
        | nil => exact absurd hq hcols
        | cons x xs => simp [hq]
      have hne : (row.2).filterMap (fun c : String × Bag =>
        if maxWordScore words c.1 ≥ t1 then some (⟨c.1, maxWordScore words c.1, c.2⟩ : ColumnHit) else none) ≠ [] := by
        intro hnil
        rw [hnil] at hlen
        simp only [List.length_nil] at hlen
        omega
      simp [hne]
  case isFalse => simp at hsome

/-- C6: for every stored graph and query text, raising the similarity
threshold never increases the number of tables the relevance search
returns: a table is kept iff its score meets the threshold or it has a
relevant column, and both conditions are antitone in the threshold. -/
theorem c6_search_monotone (g : GraphStore) (queryText : String) (t1 t2 : ℚ)
    (h : t1 ≤ t2) :
    (findRelevantSchemaStore g queryText t2).length ≤
      (findRelevantSchemaStore g queryText t1).length := by
  unfold findRelevantSchemaStore findRelevantSchemaRows sortByScoreDesc
  rw [List.length_mergeSort, List.length_mergeSort]
  exact length_filterMap_mono _ _
    (relevantEntry_isSome_mono t1 t2 h (pySplitLower queryText)) (loadSchemaData g)

/-- C6 witness: thresholds 0.5 ≤ 0.9 on a concrete two-database store. -/
theorem c6_search_monotone_witness :
    (1/2 : ℚ) ≤ 9/10 ∧
    (findRelevantSchemaStore twoDbStore "alpha bravo" (9/10)).length ≤
      (findRelevantSchemaStore twoDbStore "alpha bravo" (1/2)).length :=
  ⟨by norm_num, c6_search_monotone twoDbStore "alpha bravo" (1/2) (9/10) (by norm_num)⟩

/-- Fuzzy similarity scores are nonnegative. -/
theorem fuzzQ_nonneg (a b : String) : 0 ≤ fuzzQ a b := by
  unfold fuzzQ; positivity

/-- One matcher loop iteration either leaves the accumulator unchanged or
selects the current table, in which case one of its acceptance guards held. -/
theorem considerTable_cases (ref : String) (θ : ℚ) (t : String) (acc : Option String × ℚ) :
    considerTable ref θ t acc = acc ∨
    ((considerTable ref θ t acc).1 = some t ∧ matchAccept ref θ t) := by
  simp only [considerTable]
  split_ifs with h1 h2 h3 h4 h5
  · exact Or.inr ⟨rfl, Or.inr ⟨h1, h3.2⟩⟩
  · exact Or.inr ⟨rfl, Or.inl h2.2⟩
  · exact Or.inr ⟨rfl, Or.inr ⟨h1, h4.2⟩⟩
  · exact Or.inl rfl
  · exact Or.inr ⟨rfl, Or.inl h5.2⟩
  · exact Or.inl rfl

/-- The best match after one iteration is the old one or the current table. -/
theorem considerTable_fst_sound (ref : String) (θ : ℚ) (t : String)
    (acc : Option String × ℚ) (u : String)
    (h : (considerTable ref θ t acc).1 = some u) :
    acc.1 = some u ∨ (u = t ∧ matchAccept ref θ t) := by
  rcases considerTable_cases ref θ t acc with he | ⟨hf, hm⟩
  · rw [he] at h; exact Or.inl h
  · rw [hf] at h
    exact Or.inr ⟨(Option.some.inj h).symm, hm⟩

/-- The loop keeps `best_score` nonnegative and zero while no match is set. -/
theorem considerTable_J (ref : String) (θ : ℚ) (t : String)
    (acc : Option String × ℚ) (hJ : acc.1 = none → acc.2 = 0) (h0 : 0 ≤ acc.2) :
    ((considerTable ref θ t acc).1 = none → (considerTable ref θ t acc).2 = 0)
    ∧ 0 ≤ (considerTable ref θ t acc).2 := by
  have hf := fuzzQ_nonneg ref.toUpper t.toUpper
  simp only [considerTable]
  split_ifs
  · exact ⟨by simp, mul_nonneg hf (by norm_num)⟩
  · exact ⟨by simp, hf⟩
  · exact ⟨by simp, mul_nonneg hf (by norm_num)⟩
  · exact ⟨hJ, h0⟩
  · exact ⟨by simp, hf⟩
  · exact ⟨hJ, h0⟩

/-- An iteration whose table satisfies an acceptance guard (or that already
holds a best match) leaves the accumulator with a match set. -/
theorem considerTable_isSome_of_accept (ref : String) (θ : ℚ) (t : String)
    (acc : Option String × ℚ) (hJ : acc.1 = none → acc.2 = 0) (hθ : 0 < θ)
    (ha : acc.1.isSome ∨ matchAccept ref θ t) :
    (considerTable ref θ t acc).1.isSome := by
  have hf := fuzzQ_nonneg ref.toUpper t.toUpper
  rcases ha with hs | ha
  · rcases considerTable_cases ref θ t acc with he | ⟨hft, _⟩
    · rw [he]; exact hs
    · rw [hft]; rfl
  · cases hacc : acc.1 with
    | some u =>
      rcases considerTable_cases ref θ t acc with he | ⟨hft, _⟩
      · rw [he, hacc]; rfl
      · rw [hft]; rfl
    | none =>
      have h2 : acc.2 = 0 := hJ hacc
      simp only [considerTable]
      split_ifs with h1 hF hA hA2 hF2
      · rfl
      · rfl
      · rfl
      · exfalso
        rcases ha with hs | ⟨hb, hadj⟩
        · exact hF ⟨by rw [h2]; linarith, hs⟩
        · exact hA2 ⟨by rw [h2]; linarith, hadj⟩
      · rfl
      · exfalso
        rcases ha with hs | ⟨hb, hadj⟩
        · exact hF2 ⟨by rw [h2]; linarith, hs⟩
        · exact h1 hb

/-- Whatever `_find_matching_table`'s loop returns was accepted: an exact
match, or a table whose fuzzy or boosted score met the threshold. -/
theorem findMatchGo_sound (ref : String) (θ : ℚ) :
    ∀ (ts : List String) (acc : Option String × ℚ) (m : String),
      (∀ u, acc.1 = some u → (ref.toUpper = u.toUpper ∨ matchAccept ref θ u)) →
      findMatchGo ref θ ts acc = some m →
      ref.toUpper = m.toUpper ∨ matchAccept ref θ m
  | [], acc, m, hacc, h => hacc m h
  | t :: ts, acc, m, hacc, h => by
    simp only [findMatchGo] at h
    split_ifs at h with he
    · exact Or.inl (he.trans (congrArg String.toUpper (Option.some.inj h)))
    · refine findMatchGo_sound ref θ ts _ m (fun u hu => ?_) h
      rcases considerTable_fst_sound ref θ t acc u hu with h1 | ⟨h1, h2⟩
      · exact hacc u h1
      · exact h1 ▸ Or.inr h2

/-- With no exact match available, the loop finds a table iff one satisfies
an acceptance guard (threshold positive, accumulator well-formed). -/
theorem findMatchGo_isSome (ref : String) (θ : ℚ) (hθ : 0 < θ) :
    ∀ (ts : List String) (acc : Option String × ℚ),
      (acc.1 = none → acc.2 = 0) → 0 ≤ acc.2 →
      (∀ t ∈ ts, ref.toUpper ≠ t.toUpper) →
      ((findMatchGo ref θ ts acc).isSome ↔
        acc.1.isSome ∨ ∃ t ∈ ts, matchAccept ref θ t)
  | [], acc, _, _, _ => by simp [findMatchGo]
  | t :: ts, acc, hJ, h0, hex => by
    simp only [findMatchGo]
    have hne : ref.toUpper ≠ t.toUpper := hex t (by simp)
    rw [if_neg hne]
    have hJ' := considerTable_J ref θ t acc hJ h0
    rw [findMatchGo_isSome ref θ hθ ts (considerTable ref θ t acc) hJ'.1 hJ'.2
      (fun u hu => hex u (by simp [hu]))]
    constructor
    · rintro (hs | hrest)
      · rcases hc : (considerTable ref θ t acc).1 with _ | u
        · rw [hc] at hs; simp at hs
        · rcases considerTable_fst_sound ref θ t acc u hc with h1 | ⟨h1, h2⟩
          · exact Or.inl (by simp [h1])
          · exact Or.inr ⟨t, by simp, h1 ▸ h2⟩
      · obtain ⟨u, hu, hm⟩ := hrest
        exact Or.inr ⟨u, by simp [hu], hm⟩
    · rintro (hs | ⟨u, hu, hm⟩)
      · exact Or.inl (considerTable_isSome_of_accept ref θ t acc hJ hθ (Or.inl hs))
      · rcases List.mem_cons.mp hu with rfl | hu'
        · exact Or.inl (considerTable_isSome_of_accept ref θ u acc hJ hθ (Or.inr hm))
        · exact Or.inr ⟨u, hu', hm⟩

/-- The two acceptance guards are equivalent to the single resolution-score
comparison of the specification. -/
theorem matchAccept_iff_acceptanceScore (ref : String) (θ : ℚ) (t : String) :
    matchAccept ref θ t ↔ θ ≤ acceptanceScoreSpec ref t := by
  have hf := fuzzQ_nonneg ref.toUpper t.toUpper
  unfold matchAccept acceptanceScoreSpec
  by_cases he : boostEligible ref t
  · rw [if_pos he]
    constructor
    · rintro (h1 | ⟨_, h2⟩)
      · nlinarith
      · exact h2
    · intro h; exact Or.inr ⟨he, h⟩
  · rw [if_neg he]
    constructor
    · rintro (h1 | ⟨hb, _⟩)
      · exact h1
      · exact absurd hb he
    · exact Or.inl

/-- C5 (amended): with a positive threshold and a reference that matches no
table name exactly (case-insensitively), `_find_matching_table` returns a
match if and only if some table's resolution score — its fuzzy similarity,
multiplied by 1.2 when the substring-containment bonus applies — meets the
threshold.  In particular, with threshold 0.7 and no applicable substring
bonus, a best similarity of 0.65 yields no match (hence no inferred edge for
that reference) and 0.75 yields one. -/
theorem c5_threshold_amended (reference : String) (tableNames : List String) (θ : ℚ)
    (hθ : 0 < θ) (hex : ∀ t ∈ tableNames, reference.toUpper ≠ t.toUpper) :
    (findMatchingTable reference tableNames θ).isSome ↔
      ∃ t ∈ tableNames, θ ≤ acceptanceScoreSpec reference t := by
  unfold findMatchingTable
  rw [findMatchGo_isSome reference θ hθ tableNames (none, 0) (fun _ => rfl) le_rfl hex]
  simp only [Option.isSome_none, Bool.false_eq_true, false_or]
  constructor
  · rintro ⟨t, ht, hm⟩
    exact ⟨t, ht, (matchAccept_iff_acceptanceScore reference θ t).mp hm⟩
  · rintro ⟨t, ht, hm⟩
    exact ⟨t, ht, (matchAccept_iff_acceptanceScore reference θ t).mpr hm⟩

/-- A fold preserves any invariant its step preserves. -/
theorem foldl_preserve {σ α : Type} (P : σ → Prop) (f : σ → α → σ)
    (hf : ∀ s a, P s → P (f s a)) : ∀ (l : List α) (s : σ), P s → P (l.foldl f s)
  | [], _, hs => hs
  | a :: l, s, hs => foldl_preserve P f hf l (f s a) (hf s a hs)

/-- One reference step of the inference loop either leaves the state alone or
records exactly one resolved, deduplicated relationship. -/
theorem inferRefStep_cases (θ : ℚ) (tns : List String) (info : ColumnInfo)
    (tk : Option String) (col : SchemaNode) (pat : String)
    (st : InferState) (ref : String) :
    inferRefStep θ tns info tk col pat st ref = st ∨
    ∃ m pk, findMatchingTable ref tns θ = some m ∧
      findPrimaryKeyColumn m info = some pk ∧
      (col.id, pk.id) ∉ st.pairs ∧
      inferRefStep θ tns info tk col pat st ref =
        { pairs := st.pairs ++ [(col.id, pk.id)]
          out := st.out ++ [mkInferredRel tk col pat ref m pk] } := by
  unfold inferRefStep
  split
  · exact Or.inl rfl
  · rename_i m hm
    split_ifs with hne
    · split
      · exact Or.inl rfl
      · rename_i pk hpk
        dsimp only
        split_ifs with hp
        · exact Or.inl rfl
        · exact Or.inr ⟨m, pk, hm, hpk, hp, rfl⟩
    · exact Or.inl rfl

/-- The `confidence` property of an emitted relationship is the calculated
confidence for its reference and matched table. -/
theorem bagGet_mkInferredRel_confidence (tk : Option String) (col : SchemaNode)
    (pat ref m : String) (pk : SchemaNode) :
    bagGet (mkInferredRel tk col pat ref m pk).properties "confidence"
      = some (PVal.n (calculateConfidence ref m)) := by
  with_unfolding_all rfl

/-- An emitted relationship's pair is the source column and primary key. -/
theorem relPair_mkInferredRel (tk : Option String) (col : SchemaNode)
    (pat ref m : String) (pk : SchemaNode) :
    relPair (mkInferredRel tk col pat ref m pk) = (col.id, pk.id) := rfl

/-- Emitted relationships are `HAS_FOREIGN_KEY`-typed. -/
theorem type_mkInferredRel (tk : Option String) (col : SchemaNode)
    (pat ref m : String) (pk : SchemaNode) :
    (mkInferredRel tk col pat ref m pk).type = "HAS_FOREIGN_KEY" := rfl

/-- Rounding to two decimals fixes values that already have two decimals. -/
theorem round2_natCast_div (n : ℕ) : round2 ((n : ℚ)/100) = (n : ℚ)/100 := by
  unfold round2
  have h1 : (n : ℚ)/100 * 100 + 1/2 = (n : ℚ) + 1/2 := by ring
  rw [h1]
  have h2 : ⌊(n : ℚ) + 1/2⌋ = (n : ℤ) := by
    rw [Int.floor_eq_iff]
    constructor
    · push_cast; linarith
    · push_cast; linarith
  rw [h2]
  push_cast
  ring

/-- The floor of 100.5. -/
theorem floor_hundred_half : ⌊(100 : ℚ) + 1/2⌋ = 100 := by
  rw [Int.floor_eq_iff]
  norm_num

/-- Rounding one gives one. -/
theorem round2_one : round2 1 = 1 := by
  unfold round2
  rw [show (1 : ℚ) * 100 + 1/2 = 100 + 1/2 by norm_num, floor_hundred_half]
  norm_num

/-- Rounding to two decimals (half up) never pushes a value above 1. -/
theorem round2_le_one {q : ℚ} (h : q ≤ 1) : round2 q ≤ 1 := by
  unfold round2
  have h1 : ⌊q * 100 + 1/2⌋ ≤ 100 := by
    calc ⌊q * 100 + 1/2⌋ ≤ ⌊(100 : ℚ) + 1/2⌋ := Int.floor_le_floor (by linarith)
      _ = 100 := floor_hundred_half
  calc (⌊q * 100 + 1/2⌋ : ℚ)/100 ≤ (100 : ℚ)/100 := by
        gcongr
        exact_mod_cast h1
    _ = 1 := by norm_num

def confInv (θ : ℚ) (tns : List String) (st : InferState) : Prop :=
  ∀ x ∈ st.out, ∃ rf m, findMatchingTable rf tns θ = some m ∧
    bagGet x.properties "confidence" = some (PVal.n (calculateConfidence rf m))

/-- The whole inference pass preserves any invariant the reference step
preserves. -/
theorem inferFold_preserve (θ : ℚ) (tns : List String) (info : ColumnInfo)
    (P : InferState → Prop)
    (hstep : ∀ tk col pat st ref, P st → P (inferRefStep θ tns info tk col pat st ref)) :
    ∀ (st : InferState), P st →
      P (info.foldl (fun (st : InferState) (entry : Option String × List SchemaNode) =>
          entry.2.foldl (inferColumnStep θ tns info entry.1) st) st) := by
  intro st hst
  refine foldl_preserve P _ ?_ info st hst
  intro s entry hs
  refine foldl_preserve P _ ?_ entry.2 s hs
  intro s2 col hs2
  unfold inferColumnStep
  refine foldl_preserve P _ ?_ fkPatterns s2 hs2
  intro s3 pat hs3
  unfold inferPatternStep
  split_ifs with hmatch
  · exact foldl_preserve P _ (fun s4 ref2 hs4 => hstep entry.1 col pat s4 ref2 hs4)
      (extractTableReferences col.name pat) s3 hs3
  · exact hs3

/-- The reference step preserves the confidence invariant. -/
theorem inferRefStep_conf (θ : ℚ) (tns : List String) (info : ColumnInfo)
    (tk : Option String) (col : SchemaNode) (pat : String)
    (st : InferState) (ref : String) (hst : confInv θ tns st) :
    confInv θ tns (inferRefStep θ tns info tk col pat st ref) := by
  intro x hx
  rcases inferRefStep_cases θ tns info tk col pat st ref with he | ⟨m, pk, hm, hpk, hnp, he⟩
  · rw [he] at hx; exact hst x hx
  · rw [he] at hx
    rcases List.mem_append.mp hx with hx | hx
    · exact hst x hx
    · rw [List.mem_singleton] at hx; subst hx
      exact ⟨ref, m, hm, bagGet_mkInferredRel_confidence tk col pat ref m pk⟩

/-- Every inferred relationship carries the confidence computed for a
reference `_find_matching_table` resolved against the pass's table list. -/
theorem inferForeignKeys_conf (θ : ℚ) (nodes : List SchemaNode)
    (rels : List SchemaRelationship) :
    ∀ r ∈ inferForeignKeysFromNaming θ nodes rels,
      ∃ rf m, findMatchingTable rf ((nodes.filter (fun n => n.type == "table")).map (·.name)) θ
          = some m ∧
        bagGet r.properties "confidence" = some (PVal.n (calculateConfidence rf m)) := by
  have h := inferFold_preserve θ ((nodes.filter (fun n => n.type == "table")).map (·.name))
    (buildColumnInfo nodes)
    (confInv θ ((nodes.filter (fun n => n.type == "table")).map (·.name)))
    (fun tk col pat st ref hst =>
      inferRefStep_conf θ _ (buildColumnInfo nodes) tk col pat st ref hst)
    { pairs := fkPairsOf rels, out := [] }
    (by intro x hx; simp at hx)
  exact h

/-- The reference step preserves the pair-deduplication invariant. -/
theorem inferRefStep_pairs (initPairs : List (String × String)) (θ : ℚ)
    (tns : List String) (info : ColumnInfo) (tk : Option String)
    (col : SchemaNode) (pat : String) (st : InferState) (ref : String)
    (hst : pairsInv initPairs st) :
    pairsInv initPairs (inferRefStep θ tns info tk col pat st ref) := by
  obtain ⟨h1, h2, h3⟩ := hst
  rcases inferRefStep_cases θ tns info tk col pat st ref with he | ⟨m, pk, hm, hpk, hnp, he⟩
  · rw [he]; exact ⟨h1, h2, h3⟩
  · rw [he]
    refine ⟨?_, ?_, ?_⟩
    · intro p hp; exact List.mem_append_left _ (h1 p hp)
    · intro x hx
      rcases List.mem_append.mp hx with hx | hx
      · obtain ⟨ha, hb, hc⟩ := h2 x hx
        exact ⟨List.mem_append_left _ ha, hb, hc⟩
      · rw [List.mem_singleton] at hx; subst hx
        refine ⟨?_, ?_, type_mkInferredRel tk col pat ref m pk⟩
        · rw [relPair_mkInferredRel]
          exact List.mem_append_right _ (by simp)
        · rw [relPair_mkInferredRel]
          intro hc; exact hnp (h1 _ hc)
    · simp only [List.map_append, relPair_mkInferredRel, List.map_cons, List.map_nil]
      rw [List.nodup_append]
      refine ⟨h3, List.nodup_singleton _, ?_⟩
      intro p hp hq
      rw [List.mem_singleton] at hq; subst hq
      obtain ⟨x, hx, hpx⟩ := List.mem_map.mp hp
      have := (h2 x hx).1
      rw [hpx] at this
      exact hnp this

/-- The inference output introduces no pair of the declared set and no
repeated pair, and consists of `HAS_FOREIGN_KEY` relationships. -/
theorem inferForeignKeys_pairs (θ : ℚ) (nodes : List SchemaNode)
    (rels : List SchemaRelationship) :
    (∀ r ∈ inferForeignKeysFromNaming θ nodes rels,
      relPair r ∉ fkPairsOf rels ∧ r.type = "HAS_FOREIGN_KEY")
    ∧ ((inferForeignKeysFromNaming θ nodes rels).map relPair).Nodup := by
  have h := inferFold_preserve θ ((nodes.filter (fun n => n.type == "table")).map (·.name))
    (buildColumnInfo nodes) (pairsInv (fkPairsOf rels))
    (fun tk col pat st ref hst =>
      inferRefStep_pairs (fkPairsOf rels) θ _ (buildColumnInfo nodes) tk col pat st ref hst)
    { pairs := fkPairsOf rels, out := [] }
    (by exact ⟨fun p hp => hp, fun x hx => by simp at hx, by simp⟩)
  obtain ⟨h1, h2, h3⟩ := h
  exact ⟨fun r hr => ⟨(h2 r hr).2.1, (h2 r hr).2.2⟩, h3⟩

set_option maxRecDepth 1000000

/-- C4: every relationship the inference pass emits carries as its
`confidence` property the value `_calculate_confidence` computes for the
reference/table pair that `_find_matching_table` resolved; that value is
forced to 1.0 on an exact case-insensitive match, is the 1.1-boosted fuzzy
score capped at 1.0 (then rounded) when the reference is a substring of the
matched table name, and otherwise equals the fuzzy similarity score itself,
which also cleared the threshold during resolution. -/
theorem c4_confidence_formula (θ : ℚ) (nodes : List SchemaNode)
    (rels : List SchemaRelationship) (r : SchemaRelationship)
    (hr : r ∈ inferForeignKeysFromNaming θ nodes rels) :
    ∃ reference matched : String,
      findMatchingTable reference
        ((nodes.filter (fun n => n.type == "table")).map (·.name)) θ = some matched ∧
      bagGet r.properties "confidence"
        = some (PVal.n (calculateConfidence reference matched)) ∧
      (reference.toUpper = matched.toUpper → calculateConfidence reference matched = 1) ∧
      (reference.toUpper ≠ matched.toUpper →
        strContainsSub matched.toUpper reference.toUpper = true →
        calculateConfidence reference matched
          = round2 (min (fuzzQ reference.toUpper matched.toUpper * (11/10)) 1) ∧
        calculateConfidence reference matched ≤ 1) ∧
      (reference.toUpper ≠ matched.toUpper →
        strContainsSub matched.toUpper reference.toUpper = false →
        calculateConfidence reference matched = fuzzQ reference.toUpper matched.toUpper ∧
        θ ≤ fuzzQ reference.toUpper matched.toUpper) := by
  obtain ⟨rf, m, hfind, hconf⟩ := inferForeignKeys_conf θ nodes rels r hr
  refine ⟨rf, m, hfind, hconf, ?_, ?_, ?_⟩
  · intro hex
    simp only [calculateConfidence]
    rw [if_pos hex]
    exact round2_one
  · intro hne hsub
    constructor
    · simp only [calculateConfidence]
      rw [if_neg hne, if_pos hsub]
    · simp only [calculateConfidence]
      rw [if_neg hne, if_pos hsub]
      exact round2_le_one (min_le_right _ _)
  · intro hne hsub
    constructor
    · simp only [calculateConfidence]
      rw [if_neg hne, if_neg (by simp [hsub])]
      unfold fuzzQ
      exact round2_natCast_div _
    · unfold findMatchingTable at hfind
      have hs := findMatchGo_sound rf θ
        ((nodes.filter (fun n => n.type == "table")).map (·.name)) (none, 0) m
        (fun u hu => by simp at hu) hfind
      rcases hs with hex | hacc
      · exact absurd hex hne
      · rcases hacc with h1 | ⟨hb, _⟩
        · exact h1
        · exact absurd hb.1 (by simp [hsub])

/-- C8 (amended): whenever the declared foreign-key relationships of an
introspection pass have pairwise-distinct `(source_id, target_id)` pairs,
the full introspected graph has no two `HAS_FOREIGN_KEY` relationships
sharing a pair: the inference pass never emits a pair already covered by a
declared foreign key or by an earlier inferred edge. -/
theorem c8_no_duplicate_fk_amended (cfg : Settings) (cat : Catalog)
    (schemaName databaseName : Option String)
    (h : (fkPairsOf (introspectBase (databaseName.getD cfg.default_database_name)
        schemaName cat).2).Nodup) :
    (fkPairsOf (introspectOracleSchema cfg cat schemaName databaseName).relationships).Nodup := by
  simp only [introspectOracleSchema]
  split_ifs with he
  · obtain ⟨hmem, hnd⟩ := inferForeignKeys_pairs cfg.fk_inference_similarity_threshold
      (introspectBase (databaseName.getD cfg.default_database_name) schemaName cat).1
      (introspectBase (databaseName.getD cfg.default_database_name) schemaName cat).2
    have heq : fkPairsOf
        ((introspectBase (databaseName.getD cfg.default_database_name) schemaName cat).2 ++
          inferForeignKeysFromNaming cfg.fk_inference_similarity_threshold
            (introspectBase (databaseName.getD cfg.default_database_name) schemaName cat).1
            (introspectBase (databaseName.getD cfg.default_database_name) schemaName cat).2) =
        fkPairsOf (introspectBase (databaseName.getD cfg.default_database_name) schemaName cat).2 ++
          (inferForeignKeysFromNaming cfg.fk_inference_similarity_threshold
            (introspectBase (databaseName.getD cfg.default_database_name) schemaName cat).1
            (introspectBase (databaseName.getD cfg.default_database_name) schemaName cat).2).map
            relPair := by
      unfold fkPairsOf
      rw [List.filter_append, List.map_append]
      congr 1
      have hfe : (inferForeignKeysFromNaming cfg.fk_inference_similarity_threshold
          (introspectBase (databaseName.getD cfg.default_database_name) schemaName cat).1
          (introspectBase (databaseName.getD cfg.default_database_name) schemaName cat).2).filter
            (fun r => r.type == "HAS_FOREIGN_KEY") =
          inferForeignKeysFromNaming cfg.fk_inference_similarity_threshold
            (introspectBase (databaseName.getD cfg.default_database_name) schemaName cat).1
            (introspectBase (databaseName.getD cfg.default_database_name) schemaName cat).2 := by
        apply List.filter_eq_self.mpr
        intro r hrr
        simpa using (hmem r hrr).2
      rw [hfe]
    rw [heq, List.nodup_append]
    refine ⟨h, hnd, ?_⟩
    intro p hp hq
    obtain ⟨x, hx, hpx⟩ := List.mem_map.mp hq
    exact (hmem x hx).1 (hpx ▸ hp)
  · exact h

/-- C8 witness: the amended theorem on the `ORDERS`/`CUSTOMERS` catalog,
whose declared foreign-key list is empty. -/
theorem c8_no_duplicate_fk_amended_witness :
    (fkPairsOf (introspectBase ((some "db1").getD defaultSettings.default_database_name)
        none ordersCatalog).2).Nodup ∧
    (fkPairsOf (introspectOracleSchema defaultSettings ordersCatalog none
        (some "db1")).relationships).Nodup :=
  ⟨by with_unfolding_all decide,
   c8_no_duplicate_fk_amended defaultSettings ordersCatalog none (some "db1")
     (by with_unfolding_all decide)⟩

/-- C4 witness: the theorem applied to the inferred relationship of the
`PRODUCTS`/`ITEMS` node list at threshold 0.7. -/
theorem c4_confidence_formula_witness :
    productInferredRel ∈ inferForeignKeysFromNaming (7/10) productNodes [] ∧
    (∃ reference matched : String,
      findMatchingTable reference
        ((productNodes.filter (fun n => n.type == "table")).map (·.name)) (7/10) = some matched ∧
      bagGet productInferredRel.properties "confidence"
        = some (PVal.n (calculateConfidence reference matched)) ∧
      (reference.toUpper = matched.toUpper → calculateConfidence reference matched = 1) ∧
      (reference.toUpper ≠ matched.toUpper →
        strContainsSub matched.toUpper reference.toUpper = true →
        calculateConfidence reference matched
          = round2 (min (fuzzQ reference.toUpper matched.toUpper * (11/10)) 1) ∧
        calculateConfidence reference matched ≤ 1) ∧
      (reference.toUpper ≠ matched.toUpper →
        strContainsSub matched.toUpper reference.toUpper = false →
        calculateConfidence reference matched = fuzzQ reference.toUpper matched.toUpper ∧
        (7/10 : ℚ) ≤ fuzzQ reference.toUpper matched.toUpper)) :=
  ⟨by with_unfolding_all decide,
   c4_confidence_formula (7/10) productNodes [] productInferredRel
     (by with_unfolding_all decide)⟩

/-- Membership in a fold that only appends. -/
theorem mem_foldl_append {α β : Type} (f : β → List α) (l : List β)
    (init : List α) (x : α) :
    (x ∈ l.foldl (fun acc b => acc ++ f b) init ↔ x ∈ init ∨ ∃ b ∈ l, x ∈ f b) := by
  induction l generalizing init with
  | nil => simp
  | cons b bs ih =>
    simp only [List.foldl_cons]
    rw [ih]
    simp only [List.mem_append, List.mem_cons]
    constructor
    · rintro ((h | h) | ⟨b', hb', hx⟩)
      · exact Or.inl h
      · exact Or.inr ⟨b, Or.inl rfl, h⟩
      · exact Or.inr ⟨b', Or.inr hb', hx⟩
    · rintro (h | ⟨b', hb' | hb', hx⟩)
      · exact Or.inl (Or.inl h)
      · exact Or.inl (Or.inr (hb' ▸ hx))
      · exact Or.inr ⟨b', hb', hx⟩

/-- Membership in the relationship-creation fold of the store operation. -/
theorem mem_storeRels_fold (ns : List SchemaNode) (l : List SchemaRelationship)
    (init : List SchemaRelationship) (x : SchemaRelationship) :
    (x ∈ l.foldl (fun acc rel =>
        acc ++ List.replicate (countId ns rel.source_id * countId ns rel.target_id) rel) init ↔
      x ∈ init ∨ ∃ rel ∈ l,
        x ∈ List.replicate (countId ns rel.source_id * countId ns rel.target_id) rel) :=
  mem_foldl_append
    (fun rel => List.replicate (countId ns rel.source_id * countId ns rel.target_id) rel)
    l init x

/-- C10 (amended): a relationship whose source or target id matches no node
of the store after node insertion is silently absent from the stored
relationships — the `MATCH`/`MATCH`/`CREATE` statement creates zero rows and
the store operation completes without error. -/
theorem c10_missing_endpoint_amended (cfg : Settings) (ts : String)
    (g : SchemaGraph) (databaseName : Option String) (rel : SchemaRelationship)
    (hmissing :
      countId (storeSchemaInNeo4j cfg ts emptyStore g databaseName).nodes rel.source_id = 0 ∨
      countId (storeSchemaInNeo4j cfg ts emptyStore g databaseName).nodes rel.target_id = 0) :
    rel ∉ (storeSchemaInNeo4j cfg ts emptyStore g databaseName).rels := by
  intro hin
  have hempty : (if (!cfg.support_multiple_databases) = true
        then emptyStore
        else detachDeleteWhere
          (multiDbDeleteCond (databaseName.getD cfg.default_database_name)) emptyStore)
      = emptyStore := by split_ifs <;> rfl
  simp only [storeSchemaInNeo4j] at hin hmissing
  simp only [hempty] at hin hmissing
  simp only [emptyStore, List.nil_append] at hin hmissing
  rw [mem_storeRels_fold] at hin
  rcases hin with hin | ⟨rel', hmem', hx⟩
  · simp at hin
  · obtain rfl := List.eq_of_mem_replicate hx
    have hpos := List.length_pos_of_mem hx
    rw [List.length_replicate] at hpos
    rcases hmissing with h0 | h0 <;> rw [h0] at hpos <;> simp at hpos

/-- Deduplication preserves membership. -/
theorem mem_distinctKeepFirst {α : Type} [DecidableEq α] (a : α) :
    ∀ (l : List α), a ∈ distinctKeepFirst l ↔ a ∈ l
  | [] => by simp [distinctKeepFirst]
  | b :: rest => by
    rw [distinctKeepFirst]
    simp only [List.mem_cons]
    rw [mem_distinctKeepFirst a (rest.filter (fun x => x ≠ b))]
    simp only [List.mem_filter]
    constructor
    · rintro (rfl | ⟨h1, _⟩)
      · exact Or.inl rfl
      · exact Or.inr h1
    · rintro (rfl | h1)
      · exact Or.inl rfl
      · by_cases hab : a = b
        · exact Or.inl hab
        · exact Or.inr ⟨h1, by simpa using hab⟩
termination_by l => l.length
decreasing_by
  simp only [List.length_cons]
  exact Nat.lt_succ_of_le (List.length_filter_le _ _)

/-- Characterization of one traversal step of the Cypher pattern. -/
theorem mem_childNodes (g : GraphStore) (pid rt nt : String) (x : SchemaNode) :
    x ∈ childNodes g pid rt nt ↔
      ∃ r ∈ g.rels, r.type = rt ∧ r.source_id = pid ∧
        x ∈ g.nodes ∧ x.id = r.target_id ∧ x.type = nt := by
  simp only [childNodes, List.mem_flatMap, List.mem_filter, Bool.and_eq_true, beq_iff_eq]
  tauto

/-- Characterization of the reverse `HAS_COLUMN` traversal. -/
theorem mem_parentTables (g : GraphStore) (cid : String) (x : SchemaNode) :
    x ∈ parentTables g cid ↔
      ∃ r ∈ g.rels, r.type = "HAS_COLUMN" ∧ r.target_id = cid ∧
        x ∈ g.nodes ∧ x.id = r.source_id ∧ x.type = "table" := by
  simp only [parentTables, List.mem_flatMap, List.mem_filter, Bool.and_eq_true, beq_iff_eq]
  tauto

/-- Characterization of the entries of the second `OPTIONAL MATCH`. -/
theorem mem_refTableEntries (r : SchemaRelationship) (rc : SchemaNode)
    (ps : List SchemaNode) (fk : FkCtxEntry) :
    fk ∈ refTableEntries r rc ps ↔
      ((ps = [] ∧ fk = ⟨none, some rc.name, some r.properties⟩) ∨
       ∃ rt ∈ ps, fk = ⟨some rt.name, some rc.name, some r.properties⟩) := by
  unfold refTableEntries
  cases ps with
  | nil => simp
  | cons a as =>
    simp only [List.isEmpty_cons, if_neg Bool.false_ne_true, List.mem_map]
    constructor
    · rintro ⟨rt, hrt, rfl⟩
      exact Or.inr ⟨rt, hrt, rfl⟩
    · rintro (⟨h, _⟩ | ⟨rt, hrt, rfl⟩)
      · simp at h
      · exact ⟨rt, hrt, rfl⟩

/-- Characterization of the bound (non-null) foreign-key entries. -/
theorem mem_fkBound (g : GraphStore) (c : SchemaNode) (fk : FkCtxEntry) :
    fk ∈ ((g.rels.filter (fun r => r.type == "HAS_FOREIGN_KEY" && r.source_id == c.id)).flatMap
      (fun r =>
        (g.nodes.filter (fun n => n.id == r.target_id && n.type == "column")).flatMap
          (fun rc => refTableEntries r rc (parentTables g rc.id)))) ↔
      ∃ r ∈ g.rels, r.type = "HAS_FOREIGN_KEY" ∧ r.source_id = c.id ∧
        ∃ rc ∈ g.nodes, rc.id = r.target_id ∧ rc.type = "column" ∧
          fk ∈ refTableEntries r rc (parentTables g rc.id) := by
  simp only [List.mem_flatMap, List.mem_filter, Bool.and_eq_true, beq_iff_eq]
  tauto

/-- A `foreign_keys` entry with a non-null `ref_table` corresponds exactly to
a foreign-key edge, its referenced column, and a parent table of it. -/
theorem mem_fkEntriesFor_some (g : GraphStore) (c : SchemaNode) (fk : FkCtxEntry)
    (rtn : String) (href : fk.ref_table = some rtn) :
    fk ∈ fkEntriesFor g c ↔
      ∃ r ∈ g.rels, r.type = "HAS_FOREIGN_KEY" ∧ r.source_id = c.id ∧
        ∃ rc ∈ g.nodes, rc.id = r.target_id ∧ rc.type = "column" ∧
          ∃ rt ∈ parentTables g rc.id,
            fk = ⟨some rt.name, some rc.name, some r.properties⟩ := by
  simp only [fkEntriesFor]
  split_ifs with hb
  · constructor
    · intro h
      rw [List.mem_singleton] at h
      subst h; simp at href
    · rintro ⟨r, hr, hty, hsrc, rc, hrc, hid, hcty, rt, hrt, rfl⟩
      exfalso
      have hmem : (⟨some rt.name, some rc.name, some r.properties⟩ : FkCtxEntry) ∈
          ((g.rels.filter (fun r => r.type == "HAS_FOREIGN_KEY" && r.source_id == c.id)).flatMap
            (fun r =>
              (g.nodes.filter (fun n => n.id == r.target_id && n.type == "column")).flatMap
                (fun rc => refTableEntries r rc (parentTables g rc.id)))) :=
        (mem_fkBound g c _).mpr ⟨r, hr, hty, hsrc, rc, hrc, hid, hcty,
          (mem_refTableEntries r rc _ _).mpr (Or.inr ⟨rt, hrt, rfl⟩)⟩
      rw [List.isEmpty_iff] at hb
      rw [hb] at hmem
      simp at hmem
  · rw [mem_distinctKeepFirst, mem_fkBound]
    constructor
    · rintro ⟨r, hr, hty, hsrc, rc, hrc, hid, hcty, hfk⟩
      rcases (mem_refTableEntries r rc _ fk).mp hfk with ⟨_, rfl⟩ | ⟨rt, hrt, rfl⟩
      · simp at href
      · exact ⟨r, hr, hty, hsrc, rc, hrc, hid, hcty, rt, hrt, rfl⟩
    · rintro ⟨r, hr, hty, hsrc, rc, hrc, hid, hcty, rt, hrt, rfl⟩
      exact ⟨r, hr, hty, hsrc, rc, hrc, hid, hcty,
        (mem_refTableEntries r rc _ _).mpr (Or.inr ⟨rt, hrt, rfl⟩)⟩

/-- Characterization of the context query's rows. -/
theorem mem_contextRows (g : GraphStore) (names : List String) (row : CtxTable) :
    row ∈ contextRows g names ↔
      ∃ t ∈ g.nodes, t.type = "table" ∧ t.name ∈ names ∧
        childNodes g t.id "HAS_COLUMN" "column" ≠ [] ∧
        row = ⟨t.name, distinctKeepFirst ((childNodes g t.id "HAS_COLUMN" "column").map
          (fun c => ⟨c.name, c.properties, fkEntriesFor g c⟩))⟩ := by
  simp only [contextRows, List.mem_filterMap, List.mem_filter, Bool.and_eq_true, beq_iff_eq]
  constructor
  · rintro ⟨t, ⟨ht, hty, hnm⟩, hf⟩
    split_ifs at hf with hceq
    refine ⟨t, ht, hty, by simpa using hnm, ?_, (Option.some.inj hf).symm⟩
    intro hnil
    apply hceq
    rw [List.isEmpty_iff, List.map_eq_nil_iff]
    exact hnil
  · rintro ⟨t, ht, hty, hnm, hne, rfl⟩
    have hni : ¬(((childNodes g t.id "HAS_COLUMN" "column").map
        (fun c => (⟨c.name, c.properties, fkEntriesFor g c⟩ : CtxColumn))).isEmpty = true) := by
      rw [List.isEmpty_iff, List.map_eq_nil_iff]
      exact hne
    exact ⟨t, ⟨ht, hty, by simpa using hnm⟩, by rw [if_neg hni]⟩

/-- Characterization of the Python filter deriving `relationships`. -/
theorem mem_contextRelationships (rows : List CtxTable) (names : List String) (e : CtxRel) :
    e ∈ contextRelationships rows names ↔
      ∃ row ∈ rows, ∃ c ∈ row.columns, ∃ fk ∈ c.foreign_keys, ∃ rt,
        fk.ref_table = some rt ∧ rt ≠ "" ∧ rt ∈ names ∧
        e = ⟨row.table_name, c.name, rt, fk.ref_column⟩ := by
  simp only [contextRelationships, List.mem_flatMap, List.mem_filterMap]
  constructor
  · rintro ⟨row, hrow, c, hc, fk, hfk, he⟩
    cases hrt : fk.ref_table with
    | none => rw [hrt] at he; simp at he
    | some rt =>
      rw [hrt] at he
      simp only [] at he
      split_ifs at he with hcond
      · exact ⟨row, hrow, c, hc, fk, hfk, rt, hrt, hcond.1, hcond.2,
          (Option.some.inj he).symm⟩
  · rintro ⟨row, hrow, c, hc, fk, hfk, rt, hrt, hne, hmem, rfl⟩
    refine ⟨row, hrow, c, hc, fk, hfk, ?_⟩
    rw [hrt]
    simp only []
    rw [if_pos ⟨hne, hmem⟩]

/-- C7: an entry appears in the `relationships` list of
`get_schema_context(table_names)` exactly when the stored graph has a
`HAS_FOREIGN_KEY` edge from a column of a requested table to a column whose
parent table's name is also in `table_names`; edges into tables outside the
requested set are excluded.  (The hypothesis rules out the degenerate empty
table name, which Python's truthiness test would additionally filter.) -/
theorem c7_context_subset_filtering (g : GraphStore) (tableNames : List String)
    (hempty : "" ∉ tableNames) (e : CtxRel) :
    e ∈ (getSchemaContext g tableNames).relationships ↔
      ∃ t ∈ g.nodes, t.type = "table" ∧ t.name ∈ tableNames ∧
      ∃ cr ∈ g.rels, cr.type = "HAS_COLUMN" ∧ cr.source_id = t.id ∧
      ∃ c ∈ g.nodes, c.id = cr.target_id ∧ c.type = "column" ∧
      ∃ r ∈ g.rels, r.type = "HAS_FOREIGN_KEY" ∧ r.source_id = c.id ∧
      ∃ rc ∈ g.nodes, rc.id = r.target_id ∧ rc.type = "column" ∧
      ∃ pr ∈ g.rels, pr.type = "HAS_COLUMN" ∧ pr.target_id = rc.id ∧
      ∃ rt ∈ g.nodes, rt.id = pr.source_id ∧ rt.type = "table" ∧ rt.name ∈ tableNames ∧
      e = ⟨t.name, c.name, rt.name, some rc.name⟩ := by
  unfold getSchemaContext
  simp only []
  rw [mem_contextRelationships]
  constructor
  · rintro ⟨row, hrow, c, hc, fk, hfk, rtn, hrt, hne, hmemn, rfl⟩
    obtain ⟨t, ht, hty, hnm, hcne, rfl⟩ := (mem_contextRows g tableNames row).mp hrow
    simp only [] at hc
    rw [mem_distinctKeepFirst, List.mem_map] at hc
    obtain ⟨cn, hcn, rfl⟩ := hc
    obtain ⟨cr, hcr, hcrty, hcrsrc, hcnn, hcnid, hcnty⟩ :=
      (mem_childNodes g t.id "HAS_COLUMN" "column" cn).mp hcn
    simp only [] at hfk
    obtain ⟨r, hr, hrty, hrsrc, rc, hrc, hrcid, hrcty, rt, hrtmem, rfl⟩ :=
      (mem_fkEntriesFor_some g cn fk rtn hrt).mp hfk
    obtain ⟨pr, hpr, hprty, hprtgt, hrtn, hrtid, hrttype⟩ :=
      (mem_parentTables g rc.id rt).mp hrtmem
    have hrtn_eq : rtn = rt.name := (Option.some.inj hrt).symm
    subst hrtn_eq
    exact ⟨t, ht, hty, hnm, cr, hcr, hcrty, hcrsrc, cn, hcnn, hcnid, hcnty,
      r, hr, hrty, hrsrc, rc, hrc, hrcid, hrcty, pr, hpr, hprty, hprtgt,
      rt, hrtn, hrtid, hrttype, hmemn, rfl⟩
  · rintro ⟨t, ht, hty, hnm, cr, hcr, hcrty, hcrsrc, c, hcn, hcid, hcty,
      r, hr, hrty, hrsrc, rc, hrc, hrcid, hrcty, pr, hpr, hprty, hprtgt,
      rt, hrtn, hrtid, hrttype, hrtnm, rfl⟩
    have hcmem : c ∈ childNodes g t.id "HAS_COLUMN" "column" :=
      (mem_childNodes g t.id "HAS_COLUMN" "column" c).mpr
        ⟨cr, hcr, hcrty, hcrsrc, hcn, hcid, hcty⟩
    have hrow : (⟨t.name, distinctKeepFirst ((childNodes g t.id "HAS_COLUMN" "column").map
        (fun c => ⟨c.name, c.properties, fkEntriesFor g c⟩))⟩ : CtxTable) ∈
          contextRows g tableNames :=
      (mem_contextRows g tableNames _).mpr
        ⟨t, ht, hty, hnm, List.ne_nil_of_mem hcmem, rfl⟩
    refine ⟨_, hrow, ⟨c.name, c.properties, fkEntriesFor g c⟩, ?_, ?_⟩
    · simp only []
      rw [mem_distinctKeepFirst, List.mem_map]
      exact ⟨c, hcmem, rfl⟩
    · refine ⟨⟨some rt.name, some rc.name, some r.properties⟩, ?_, rt.name, rfl, ?_, hrtnm, rfl⟩
      · simp only []
        rw [mem_fkEntriesFor_some g c _ rt.name rfl]
        refine ⟨r, hr, hrty, hrsrc, rc, hrc, hrcid, hrcty, ?_⟩
        exact ⟨rt, (mem_parentTables g rc.id rt).mpr ⟨pr, hpr, hprty, hprtgt, hrtn, hrtid, hrttype⟩, rfl⟩
      · intro h0
        exact hempty (h0 ▸ hrtnm)

set_option maxRecDepth 1000000

/-- C7 witness: the theorem's forward direction on `ordersStore` with
requested tables `ORDERS` and `CUSTOMERS`. -/
theorem c7_context_subset_filtering_witness :
    ("" ∉ ["ORDERS", "CUSTOMERS"]) ∧
    (∃ t ∈ ordersStore.nodes, t.type = "table" ∧ t.name ∈ ["ORDERS", "CUSTOMERS"] ∧
     ∃ cr ∈ ordersStore.rels, cr.type = "HAS_COLUMN" ∧ cr.source_id = t.id ∧
     ∃ c ∈ ordersStore.nodes, c.id = cr.target_id ∧ c.type = "column" ∧
     ∃ r ∈ ordersStore.rels, r.type = "HAS_FOREIGN_KEY" ∧ r.source_id = c.id ∧
     ∃ rc ∈ ordersStore.nodes, rc.id = r.target_id ∧ rc.type = "column" ∧
     ∃ pr ∈ ordersStore.rels, pr.type = "HAS_COLUMN" ∧ pr.target_id = rc.id ∧
     ∃ rt ∈ ordersStore.nodes, rt.id = pr.source_id ∧ rt.type = "table" ∧
       rt.name ∈ ["ORDERS", "CUSTOMERS"] ∧
     (⟨"ORDERS", "CUSTOMER_ID", "CUSTOMERS", some "ID"⟩ : CtxRel)
       = ⟨t.name, c.name, rt.name, some rc.name⟩) :=
  ⟨by decide,
   (c7_context_subset_filtering ordersStore ["ORDERS", "CUSTOMERS"] (by decide)
      ⟨"ORDERS", "CUSTOMER_ID", "CUSTOMERS", some "ID"⟩).mp
     (by with_unfolding_all decide)⟩

/-- C5 witness: the amended theorem at reference `ORDR` against table list
`[ORDERS]` with threshold 0.7. -/
theorem c5_threshold_amended_witness :
    ((0 : ℚ) < 7/10 ∧ ∀ t ∈ ["ORDERS"], "ORDR".toUpper ≠ t.toUpper) ∧
    ((findMatchingTable "ORDR" ["ORDERS"] (7/10)).isSome ↔
      ∃ t ∈ ["ORDERS"], (7/10 : ℚ) ≤ acceptanceScoreSpec "ORDR" t) :=
  ⟨⟨by norm_num, by with_unfolding_all decide⟩,
   c5_threshold_amended "ORDR" ["ORDERS"] (7/10) (by norm_num) (by with_unfolding_all decide)⟩

/-- C10 witness: the amended theorem on the graph with a dangling
relationship (`missing` names no node). -/
theorem c10_missing_endpoint_amended_witness :
    (countId (storeSchemaInNeo4j defaultSettings "t1" emptyStore danglingRelGraph
        (some "db1")).nodes "n1" = 0 ∨
     countId (storeSchemaInNeo4j defaultSettings "t1" emptyStore danglingRelGraph
        (some "db1")).nodes "missing" = 0) ∧
    (⟨"n1", "missing", "HAS_COLUMN", []⟩ : SchemaRelationship) ∉
      (storeSchemaInNeo4j defaultSettings "t1" emptyStore danglingRelGraph (some "db1")).rels :=
  ⟨Or.inr (by with_unfolding_all decide),
   c10_missing_endpoint_amended defaultSettings "t1" danglingRelGraph (some "db1")
     ⟨"n1", "missing", "HAS_COLUMN", []⟩ (Or.inr (by with_unfolding_all decide))⟩
